import Mathlib

/-!
# FileBlobStore: binary file storage

A shallow embedding of `src/FileBlobStore.js`: a key/value store of byte buffers kept in
an in-memory overlay (`_data`) over a stored blob with an offset index
(`_storedBlob`, `_storedBlobMap`), written back to disk by `save` under a lock file.

How the JavaScript is rendered here:

* a `Buffer` is the list of its bytes; the store never looks at the value of a byte;
* a plain object is the list of its own properties in creation order (`PlainObj`);
  `PlainObj.keys` gives the order in which Node enumerates them (array-index keys
  ascending, then the other keys in creation order);
* a property read goes through the prototype chain: on a plain object a key that is not
  an own property and names a member of `Object.prototype` (`constructor`, `toString`,
  `__proto__`, ...) gives that member, which is not a buffer (`Value.member`);
* an assignment to the key `__proto__` of an object that has no own property of that name
  reaches the setter of `Object.prototype`: it changes the prototype and creates no
  property. The overlay records the buffer that became its prototype (`_dataProto`);
* the result of `JSON.parse` is a `JVal`; its numbers are integers;
* what belongs to the runtime and not to this repository is a field of a `Platform`:
  `JSON.parse`, `JSON.stringify`, the conversion of a string to a number, the members of
  the prototypes of arrays, strings, numbers and booleans, and what a read or a write finds
  when a buffer or a function has become the prototype of an object;
* an exception is an `Except` result, or the `error` field of an outcome that also
  carries the state reached when it was raised;
* the file system is a value (`FileSystem`) passed in and returned;
* a callback with captured variables is a function on an accumulator.

The methods are given twice: as functions of the instance (`FileBlobStore.set`, ...), and
as steps on the whole state a method can reach, the instance together with the file system
and the calls made to `fs` (`World.set`, ...). The two agree.
-/

namespace Licia

/-! ## Values -/

/-- The bytes of a Node `Buffer`. -/
abbrev Buffer := List Nat

/-- A plain object, `types.PlainObj<T>`: its own properties in creation order. -/
abbrev PlainObj (α : Type) := List (String × α)

/-- The number an array-index key spells: a canonical decimal numeral (no leading zero)
of at most `2^32 - 2`. -/
def arrayIndex (s : String) : Option Nat :=
  match s.data with
  | [] => none
  | c :: cs =>
    if (c :: cs).all Char.isDigit && (c != '0' || cs.isEmpty) then
      let n := (c :: cs).foldl (fun acc d => 10 * acc + (d.toNat - 48)) 0
      if n ≤ 4294967294 then some n else none
    else none

/-- Whether a key is an array index. -/
def isArrayIndex (s : String) : Bool := (arrayIndex s).isSome

/-- The order of two array-index keys. -/
def indexLE (a b : String) : Prop := (arrayIndex a).getD 0 ≤ (arrayIndex b).getD 0

instance (a b : String) : Decidable (indexLE a b) := by
  unfold indexLE
  exact inferInstance

/-- The names of the members of `Object.prototype`, which every plain object inherits:
eleven functions and the accessor `__proto__`. -/
def objectProtoKeys : List String :=
  ["constructor", "__defineGetter__", "__defineSetter__", "hasOwnProperty",
    "__lookupGetter__", "__lookupSetter__", "isPrototypeOf", "propertyIsEnumerable",
    "toString", "valueOf", "__proto__", "toLocaleString"]

/-- Whether a key names a member of `Object.prototype`. -/
def isInherited (key : String) : Bool := decide (key ∈ objectProtoKeys)

/-- The property `length` of the member of `Object.prototype` of a given name: the number
of parameters of the function; `none` is `undefined`, for the prototype object that
`__proto__` gives. -/
def memberLength (name : String) : Option Nat :=
  if name = "__proto__" then none
  else if name = "__defineGetter__" ∨ name = "__defineSetter__" then some 2
  else if name = "toString" ∨ name = "valueOf" ∨ name = "toLocaleString" then some 0
  else some 1

/-- What a property read on the overlay can give: a buffer; the member of `Object.prototype`
of a given name (a function, or for `__proto__` the object `Object.prototype` itself); or
another value found through a prototype that is not `Object.prototype`, of which the store
can observe the truth value, the property `length` when it is a number, and whether it is
an object. -/
inductive Value where
  | buffer (b : Buffer)
  | member (name : String)
  | other (truthy : Bool) (length : Option Nat) (object : Bool)
deriving DecidableEq, Repr

namespace Value

/-- The truth value of a value in a condition: every object is truthy. -/
def truthy : Value → Bool
  | buffer _ => true
  | member _ => true
  | other t _ _ => t

/-- The expression `v.length`; `none` is a value that is not a number. -/
def length : Value → Option Nat
  | buffer b => some b.length
  | member name => memberLength name
  | other _ l _ => l

/-- Whether the value is an object, which the setter of `__proto__` accepts. -/
def isObject : Value → Bool
  | buffer _ => true
  | member _ => true
  | other _ _ o => o

end Value

namespace PlainObj

variable {α : Type}

/-- The own property `k` of `o`, as `hasOwnProperty` and `Object.keys` see it; `none`: the
object has no own property of that name. -/
def get : PlainObj α → String → Option α
  | [], _ => none
  | (k', v) :: o, k => if k' = k then some v else get o k

/-- The own property `k` defined with the value `v`: an existing property keeps its place,
a new one is created last. It is what `JSON.parse` does for a member, and what an
assignment does that reaches no setter. -/
def set : PlainObj α → String → α → PlainObj α
  | [], k, v => [(k, v)]
  | (k', v') :: o, k, v => if k' = k then (k', v) :: o else (k', v') :: set o k v

/-- The statement `o[k] = v` for an object `v`, on an object created by `{}` whose
prototype is `Object.prototype` or an array: for the key `__proto__`, unless it is an own
property, the setter of `Object.prototype` makes `v` the prototype and no property is
created. -/
def assign (o : PlainObj α) (k : String) (v : α) : PlainObj α :=
  if k = "__proto__" ∧ (get o k).isNone then o else set o k v

/-- The statement `delete o[k]`. -/
def delete (o : PlainObj α) (k : String) : PlainObj α :=
  o.filter (fun p => decide (p.1 ≠ k))

/-- The own properties in enumeration order: array-index keys in ascending order, then the
other keys in creation order. -/
def ownEntries (o : PlainObj α) : PlainObj α :=
  (o.filter (fun p => isArrayIndex p.1)).insertionSort (fun p q => indexLE p.1 q.1)
    ++ o.filter (fun p => !isArrayIndex p.1)

/-- The result of `Object.keys(o)`. -/
def keys (o : PlainObj α) : List String :=
  (ownEntries o).map Prod.fst

end PlainObj

/-- A JavaScript value as `JSON.parse` returns it, with `undefined` for a missing property
or a deleted array element (`JSON.parse` itself never returns `undefined`). -/
inductive JVal where
  | undefined
  | null
  | bool (b : Bool)
  | num (n : Int)
  | str (s : String)
  | arr (xs : List JVal)
  | obj (kvs : List (String × JVal))
deriving Repr

/-- An exception: a `TypeError` of the language, or an error of `fs` with its `code`. -/
inductive JSError where
  | typeError
  | fsError (code : String)
deriving DecidableEq, Repr

/-- The expression `error.code`. -/
def JSError.code : JSError → Option String
  | .typeError => none
  | .fsError c => some c

/-- The functions of the runtime the store calls or relies on.

* `parse`: `JSON.parse` applied to the bytes of a file (`none`: it throws a `SyntaxError`);
* `stringify`: `JSON.stringify` of an object followed by the encoding `writeFileSync`
  gives a string;
* `strToNumber`: the conversion of a string to a number (`none`: `NaN`), truncated to an
  integer;
* `extraMember v key`: whether the prototype of the array, string, number or boolean `v`
  has, beyond the members of `Object.prototype`, a member named `key`;
* `readThrough proto key`: the expression `o[key]` for an object `o` that has no own
  property `key` and whose prototype an assignment to `__proto__` made `proto` (`none`:
  `undefined`; it throws where a getter of a typed array is reached);
* `writeThrough proto key`: the statement `o[key] = v` for such an object and a key other
  than `__proto__`: whether an own property is created (`false`: the assignment is
  ignored), or the exception thrown. -/
structure Platform where
  parse : Buffer → Option JVal
  stringify : JVal → Buffer
  strToNumber : String → Option Int
  extraMember : JVal → String → Bool
  readThrough : Value → String → Except JSError (Option Value)
  writeThrough : Value → String → Except JSError Bool

namespace JVal

/-- The truth value of a value in a condition. -/
def truthy : JVal → Bool
  | undefined => false
  | null => false
  | bool b => b
  | num n => decide (n ≠ 0)
  | str s => decide (s ≠ "")
  | arr _ => true
  | obj _ => true

/-- The length of a string in UTF-16 code units. -/
def utf16Length (cs : List Char) : Nat :=
  (cs.map (fun c => if c.toNat < 65536 then 1 else 2)).sum

/-- The character that holds the code unit at position `i` of a string. -/
def unitAt : List Char → Nat → Option Char
  | [], _ => none
  | c :: cs, i =>
    let w := if c.toNat < 65536 then 1 else 2
    if i < w then some c else unitAt cs (i - w)

/-- What a property read on a parsed value finds: a value of its own (`undefined` when
nothing is found at all), or a member inherited from a prototype, which is a function or a
prototype object: truthy and not iterable. -/
inductive Slot where
  | value (v : JVal)
  | inherited

/-- What the prototype chain of a parsed value gives for a key that is not an own
property. The prototype of an array or of a string, which `__proto__` gives, is truthy
and iterates over nothing: it is rendered by the empty array. -/
def protoProp (P : Platform) (v : JVal) (key : String) : Slot :=
  match v with
  | obj _ => if isInherited key then .inherited else .value undefined
  | arr _ =>
    if key = "__proto__" then .value (arr [])
    else if isInherited key || P.extraMember v key then .inherited else .value undefined
  | str _ =>
    if key = "__proto__" then .value (arr [])
    else if isInherited key || P.extraMember v key then .inherited else .value undefined
  | _ => if isInherited key || P.extraMember v key then .inherited else .value undefined

/-- The expression `v[key]`. Reading a property of `null` or `undefined` throws. A string
has its code units and `length`, an array its elements and `length`, an object its own
properties; any other key is looked up in the prototype chain. For a character outside the
basic plane the one-unit string is rendered by the character itself (both are non-empty
strings that are not numerals). -/
def getProp (P : Platform) (v : JVal) (key : String) : Except JSError Slot :=
  match v with
  | undefined => .error .typeError
  | null => .error .typeError
  | bool _ => .ok (protoProp P v key)
  | num _ => .ok (protoProp P v key)
  | str s =>
    if key = "length" then .ok (.value (num (utf16Length s.data)))
    else match arrayIndex key with
      | some i => (match unitAt s.data i with
        | some c => .ok (.value (str (String.singleton c)))
        | none => .ok (.value undefined))
      | none => .ok (protoProp P v key)
  | arr xs =>
    if key = "length" then .ok (.value (num xs.length))
    else match arrayIndex key with
      | some i => .ok (.value (xs.getD i undefined))
      | none => .ok (protoProp P v key)
  | obj kvs =>
    match PlainObj.get kvs key with
    | some x => .ok (.value x)
    | none => .ok (protoProp P v key)

/-- The result of `Object.keys(v)`. -/
def ownKeys (v : JVal) : Except JSError (List String) :=
  match v with
  | undefined => .error .typeError
  | null => .error .typeError
  | bool _ => .ok []
  | num _ => .ok []
  | str s => .ok ((List.range (utf16Length s.data)).map toString)
  | arr xs =>
    .ok (((List.range xs.length).filter
      (fun i => match xs.getD i undefined with
        | undefined => false
        | _ => true)).map toString)
  | obj kvs => .ok (PlainObj.keys kvs)

/-- The statement `delete v[key]`, giving the value afterwards. A deleted array element
leaves `undefined` in its place; the code units of a string and every `length` stay. -/
def deleteProp (v : JVal) (key : String) : Except JSError JVal :=
  match v with
  | undefined => .error .typeError
  | null => .error .typeError
  | bool b => .ok (bool b)
  | num n => .ok (num n)
  | str s => .ok (str s)
  | arr xs =>
    match arrayIndex key with
    | some i => .ok (arr (xs.set i undefined))
    | none => .ok (arr xs)
  | obj kvs => .ok (obj (PlainObj.delete kvs key))

/-- The destructuring `const [start, end] = v`: the first two values an array or a string
iterates over; any other value is not iterable. -/
def destructurePair (v : JVal) : Except JSError (JVal × JVal) :=
  match v with
  | arr xs => .ok (xs.getD 0 undefined, xs.getD 1 undefined)
  | str s =>
    match s.data with
    | [] => .ok (undefined, undefined)
    | [a] => .ok (str (String.singleton a), undefined)
    | a :: b :: _ => .ok (str (String.singleton a), str (String.singleton b))
  | _ => .error .typeError

mutual
/-- The conversion `+v` of a value to a number, truncated to an integer; `none` is `NaN`.
An array converts through its string, the join of its elements. -/
def toNumber (P : Platform) : JVal → Option Int
  | undefined => none
  | null => some 0
  | bool b => some (if b then 1 else 0)
  | num n => some n
  | str s => P.strToNumber s
  | arr xs => joinToNumber P xs
  | obj _ => none
/-- The number spelled by the join of the elements of an array. -/
def joinToNumber (P : Platform) : List JVal → Option Int
  | [] => some 0
  | [undefined] => some 0
  | [null] => some 0
  | [bool _] => none
  | [num n] => some n
  | [str s] => P.strToNumber s
  | [arr ys] => joinToNumber P ys
  | [obj _] => none
  | _ :: _ :: _ => none
end

end JVal

/-- The helper `adjustOffset` of `Buffer.prototype.slice`: a negative offset counts from
the end, and the result is clamped to `0 .. length`. -/
def adjustOffset (offset : Option Int) (length : Nat) : Nat :=
  match offset with
  | none => 0
  | some n =>
    if n < 0 then (n + length).toNat
    else if n < length then n.toNat
    else length

/-- The call `buf.slice(start, end)`. -/
def Buffer.slice (P : Platform) (buf : Buffer) (start stop : JVal) : Buffer :=
  let s := adjustOffset (JVal.toNumber P start) buf.length
  let e := match stop with
    | .undefined => buf.length
    | _ => adjustOffset (JVal.toNumber P stop) buf.length
  (buf.drop s).take (e - s)

/-- The call `Buffer.concat(list)`: the bytes of the buffers in order; it throws a
`TypeError` when an element of the list is not a buffer. -/
def Buffer.concat : List Value → Except JSError Buffer
  | [] => .ok []
  | .buffer b :: rest =>
    match Buffer.concat rest with
    | .error e => .error e
    | .ok r => .ok (b ++ r)
  | _ :: _ => .error .typeError

/-! ## The file system -/

/-- What a path names: a file with its bytes, or a directory. -/
inductive Entry where
  | file (content : Buffer)
  | dir
deriving DecidableEq, Repr

/-- The state of the file system as `fs` sees it: what each path names, and for each path
the error code, if any, with which the system refuses to write there (no permission, disk
full, ...). A refused write leaves the file as it was. The code `EEXIST` is not a refusal:
the system gives it only to the exclusive creation of a path that exists. -/
structure FileSystem where
  entries : String → Option Entry
  writeFault : String → Option String

namespace fs

/-- The call `fs.existsSync(path)`. -/
def existsSync (fsys : FileSystem) (path : String) : Bool :=
  (fsys.entries path).isSome

/-- The call `fs.readFileSync(path)`. -/
def readFileSync (fsys : FileSystem) (path : String) : Except JSError Buffer :=
  match fsys.entries path with
  | none => .error (.fsError "ENOENT")
  | some .dir => .error (.fsError "EISDIR")
  | some (.file content) => .ok content

/-- The file system with `path` naming a file of the given bytes. -/
def store (fsys : FileSystem) (path : String) (data : Buffer) : FileSystem :=
  { fsys with entries := fun p => if p = path then some (.file data) else fsys.entries p }

/-- The error code with which the system refuses a write at the path, if it does. -/
def refusal (fsys : FileSystem) (path : String) : Option String :=
  match fsys.writeFault path with
  | none => none
  | some code => if code = "EEXIST" then none else some code

/-- The call `fs.writeFileSync(path, data)`, and with `wx` set
`fs.writeFileSync(path, data, { flag: 'wx' })`, which fails with `EEXIST` when the path
exists. No other write fails with `EEXIST`. -/
def writeFileSync (fsys : FileSystem) (path : String) (data : Buffer) (wx : Bool) :
    Except JSError FileSystem :=
  if wx && existsSync fsys path then .error (.fsError "EEXIST")
  else match refusal fsys path with
    | some code => .error (.fsError code)
    | none =>
      match fsys.entries path with
      | some .dir => .error (.fsError "EISDIR")
      | _ => .ok (store fsys path data)

/-- The call `fs.unlinkSync(path)`: it throws when the path names no file; removing a file
that exists succeeds. -/
def unlinkSync (fsys : FileSystem) (path : String) : Except JSError FileSystem :=
  match fsys.entries path with
  | none => .error (.fsError "ENOENT")
  | some .dir => .error (.fsError "EISDIR")
  | some (.file _) =>
    .ok { fsys with entries := fun p => if p = path then none else fsys.entries p }

end fs

/-! ## Helpers of the library -/

/-- Modelled from the spec: the helper `keys` of the library, applied to the overlay: its
own keys in enumeration order. -/
def keys {α : Type} (o : PlainObj α) : List String := PlainObj.keys o

/-- Modelled from the spec: the helper `concat` of the library: the keys of the first
list followed by those of the second. -/
def concat (a b : List String) : List String := a ++ b

/-- Modelled from the spec: the helper `unique` of the library: the list without
duplicates, one occurrence of each key (here the last one). -/
def unique : List String → List String
  | [] => []
  | x :: xs => if x ∈ xs then unique xs else x :: unique xs

/-- Modelled from the spec: the helper `each` of the library over an array: the iterator
is called on every element in order; an exception it throws ends the loop. -/
def eachM {σ β : Type} (xs : List β) (iterator : σ → β → Except JSError σ) (acc : σ) :
    Except JSError σ :=
  match xs with
  | [] => .ok acc
  | x :: rest =>
    match iterator acc x with
    | .error e => .error e
    | .ok acc' => eachM rest iterator acc'

/-- Modelled from the spec: the helper `toArr` of the library on a string: the array of
that one key; the empty string, which the spec excludes as a key, is falsy and gives the
empty array. -/
def toArr (key : String) : List String := if key = "" then [] else [key]

/-- The characters `LOCK` that `save` writes into the lock file. -/
def lockContent : Buffer := [76, 79, 67, 75]

/-! ## The store -/

/-- The fields of a `FileBlobStore` instance that change or differ between instances;
`_mapPath` and `_lockPath`, which the constructor derives from `_path` and nothing assigns
afterwards, are functions of it below. The overlay `this._data` is its own properties
(`_data`) and its prototype (`_dataProto`): `none` is `Object.prototype`, which the overlay
has until an assignment to its key `__proto__` makes a buffer its prototype. -/
structure FileBlobStore where
  _path : String
  _data : PlainObj Buffer
  _dataProto : Option Buffer
  _storedBlob : Buffer
  _storedBlobMap : JVal

/-- The field `_mapPath`: `path + '.MAP'`. -/
def FileBlobStore._mapPath (s : FileBlobStore) : String := s._path ++ ".MAP"

/-- The field `_lockPath`: `path + '.LOCK'`. -/
def FileBlobStore._lockPath (s : FileBlobStore) : String := s._path ++ ".LOCK"

/-- The arguments of a `change` event: `emit('change', key, buf, oldBuf)`. -/
structure ChangeEvent where
  key : String
  buf : Buffer
  oldBuf : Option Value
deriving DecidableEq, Repr

/-- What a mutating method leaves: the instance as it is when the method returns or
throws, the events emitted, and the exception thrown, if any. -/
structure Outcome where
  store : FileBlobStore
  events : List ChangeEvent
  error : Option JSError

/-- The argument of `set`: a key and a buffer, or an object of buffers. -/
inductive SetArg where
  | single (key : String) (buf : Buffer)
  | bulk (values : PlainObj Buffer)

/-- The object `ret` that `get(keys)` builds: its own properties, and the value an
assignment to its key `__proto__` made its prototype (`none`: `Object.prototype`). -/
structure Ret where
  own : PlainObj (Option Value)
  proto : Option Value
deriving DecidableEq, Repr

/-- The sum of two numbers; `none` is `NaN`, which a value that is not a number gives. -/
def addNum (a b : Option Nat) : Option Nat :=
  match a, b with
  | some x, some y => some (x + y)
  | _, _ => none

/-- The variables the callback `dump` of `_getDump` captures; an offset `none` is `NaN`. -/
structure DumpState where
  buffers : List Value
  blobMap : PlainObj (Option Nat × Option Nat)
  curBufStart : Option Nat
deriving DecidableEq, Repr

/-- What `save` leaves: the file system, and the exception thrown, if any. -/
structure SaveOutcome where
  fsys : FileSystem
  error : Option JSError

/-- An offset as `JSON.stringify` sees it: it writes `NaN` as `null`. -/
def offsetValue : Option Nat → JVal
  | some n => .num n
  | none => .null

/-- The object `blobMap` as a value: each key with the array `[start, end]`. -/
def indexValue (blobMap : PlainObj (Option Nat × Option Nat)) : JVal :=
  .obj (blobMap.map (fun p => (p.1, JVal.arr [offsetValue p.2.1, offsetValue p.2.2])))

namespace FileBlobStore

/-- The constructor, `initialize(path, data)` in the source: the stored blob and index
are read from `path` and `path + '.MAP'` when both exist, and are empty when a read or
the parse throws. The overlay is the plain object `data`, or a new one. -/
def create (P : Platform) (fsys : FileSystem) (path : String)
    (data : Option (PlainObj Buffer)) : FileBlobStore :=
  let stored : Buffer × JVal :=
    if fs.existsSync fsys path && fs.existsSync fsys (path ++ ".MAP") then
      match fs.readFileSync fsys path with
      | .error _ => ([], .obj [])
      | .ok storedBlob =>
        match fs.readFileSync fsys (path ++ ".MAP") with
        | .error _ => ([], .obj [])
        | .ok text =>
          match P.parse text with
          | none => ([], .obj [])
          | some storedBlobMap => (storedBlob, storedBlobMap)
    else ([], .obj [])
  { _path := path
    _data := data.getD []
    _dataProto := none
    _storedBlob := stored.1
    _storedBlobMap := stored.2 }

/-- The method `_getFromStorage(key)`; `none` is `undefined`. An inherited member passes
the test `!this._storedBlobMap[key]` and the destructuring throws on it. -/
def _getFromStorage (P : Platform) (s : FileBlobStore) (key : String) :
    Except JSError (Option Value) :=
  match JVal.getProp P s._storedBlobMap key with
  | .error e => .error e
  | .ok .inherited => .error .typeError
  | .ok (.value v) =>
    if !v.truthy then .ok none
    else match JVal.destructurePair v with
      | .error e => .error e
      | .ok (start, stop) => .ok (some (.buffer (Buffer.slice P s._storedBlob start stop)))

/-- The expression `this._data[key]`: the own property, else what the prototype of the
overlay gives: for `Object.prototype` its member of that name, if it has one. -/
def readData (P : Platform) (s : FileBlobStore) (key : String) :
    Except JSError (Option Value) :=
  match PlainObj.get s._data key with
  | some buf => .ok (some (.buffer buf))
  | none =>
    match s._dataProto with
    | none => .ok (if isInherited key then some (.member key) else none)
    | some proto => P.readThrough (.buffer proto) key

/-- The statement `this._data[key] = buf`. An own property is replaced. Otherwise the key
`__proto__` reaches the setter of `Object.prototype`, which makes `buf` the prototype of
the overlay; any other key becomes an own property when the prototype is
`Object.prototype`, whose other members are writable data properties. -/
def assignData (P : Platform) (s : FileBlobStore) (key : String) (buf : Buffer) :
    Except JSError FileBlobStore :=
  if (PlainObj.get s._data key).isSome then .ok { s with _data := PlainObj.set s._data key buf }
  else if key = "__proto__" then .ok { s with _dataProto := some buf }
  else match s._dataProto with
    | none => .ok { s with _data := PlainObj.set s._data key buf }
    | some proto =>
      match P.writeThrough (.buffer proto) key with
      | .error e => .error e
      | .ok true => .ok { s with _data := PlainObj.set s._data key buf }
      | .ok false => .ok s

/-- The method `_get(key)`: `this._data[key] || this._getFromStorage(key)`. -/
def _get (P : Platform) (s : FileBlobStore) (key : String) : Except JSError (Option Value) :=
  match readData P s key with
  | .error e => .error e
  | .ok (some v) => if v.truthy then .ok (some v) else _getFromStorage P s key
  | .ok none => _getFromStorage P s key

/-- The method `get(key)` on a string. -/
def get (P : Platform) (s : FileBlobStore) (key : String) : Except JSError (Option Value) :=
  _get P s key

/-- The statement `ret[val] = v` of `get(keys)`. An own property is replaced. Otherwise the
key `__proto__` reaches the setter of `Object.prototype`, which makes an object `v` the
prototype of `ret` and ignores any other value; any other key becomes an own property when
the prototype is `Object.prototype`. -/
def assignRet (P : Platform) (ret : Ret) (val : String) (v : Option Value) :
    Except JSError Ret :=
  if (PlainObj.get ret.own val).isSome then .ok { ret with own := PlainObj.set ret.own val v }
  else if val = "__proto__" then
    match v with
    | none => .ok ret
    | some x =>
      if x.isObject then
        .ok { ret with proto := if x = .member "__proto__" then none else some x }
      else .ok ret
  else match ret.proto with
    | none => .ok { ret with own := PlainObj.set ret.own val v }
    | some proto =>
      match P.writeThrough proto val with
      | .error e => .error e
      | .ok true => .ok { ret with own := PlainObj.set ret.own val v }
      | .ok false => .ok ret

/-- The method `get(keys)` on an array of keys. -/
def getAll (P : Platform) (s : FileBlobStore) (keys : List String) : Except JSError Ret :=
  eachM keys
    (fun ret val =>
      match _get P s val with
      | .error e => .error e
      | .ok v => assignRet P ret val v)
    { own := [], proto := none }

/-- The loop of `set` over the entries of `data`. -/
def setEach (P : Platform) :
    List (String × Buffer) → FileBlobStore → List ChangeEvent → Outcome
  | [], s, evs => { store := s, events := evs, error := none }
  | (key, buf) :: rest, s, evs =>
    match get P s key with
    | .error e => { store := s, events := evs, error := some e }
    | .ok oldBuf =>
      match assignData P s key buf with
      | .error e => { store := s, events := evs, error := some e }
      | .ok s1 => setEach P rest s1 (evs ++ [{ key := key, buf := buf, oldBuf := oldBuf }])

/-- The method `set(key, buf)` and `set(values)`. In the first form `data` is a new object
with `data[key] = buf`: for the key `__proto__` the buffer becomes the prototype of `data`,
and the helper `each` of the library, which reads `data.length` to tell an array from an
object, reaches the getter `length` of a typed array, which throws a `TypeError` on an
object that is not one. For any other key `data` has the one own property `key`. -/
def set (P : Platform) (s : FileBlobStore) (arg : SetArg) : Outcome :=
  match arg with
  | .single key buf =>
    if key = "__proto__" then { store := s, events := [], error := some .typeError }
    else setEach P [(key, buf)] s []
  | .bulk values => setEach P (PlainObj.ownEntries values) s []

/-- The loop of `remove` over the keys. -/
def removeEach : List String → FileBlobStore → Outcome
  | [], s => { store := s, events := [], error := none }
  | val :: rest, s =>
    let s1 := { s with _data := PlainObj.delete s._data val }
    match JVal.deleteProp s1._storedBlobMap val with
    | .error e => { store := s1, events := [], error := some e }
    | .ok storedBlobMap => removeEach rest { s1 with _storedBlobMap := storedBlobMap }

/-- The method `remove(keys)` on an array of keys, which `toArr` leaves as it is. -/
def removeAll (s : FileBlobStore) (keys : List String) : Outcome :=
  removeEach keys s

/-- The method `remove(key)` on a string. -/
def remove (s : FileBlobStore) (key : String) : Outcome :=
  removeEach (toArr key) s

/-- The method `clear()`. -/
def clear (s : FileBlobStore) : FileBlobStore :=
  { s with _data := [], _dataProto := none, _storedBlob := [], _storedBlobMap := .obj [] }

/-- The method `_getKeys()`. -/
def _getKeys (s : FileBlobStore) : Except JSError (List String) :=
  match JVal.ownKeys s._storedBlobMap with
  | .error e => .error e
  | .ok storedKeys => .ok (unique (concat (keys s._data) storedKeys))

/-- The method `each(fn)`: `fn` acts on an accumulator and may throw. -/
def each {σ : Type} (P : Platform) (s : FileBlobStore)
    (fn : σ → Option Value → String → Except JSError σ) (acc : σ) : Except JSError σ :=
  match _getKeys s with
  | .error e => .error e
  | .ok allKeys =>
    eachM allKeys
      (fun a key =>
        match _get P s key with
        | .error e => .error e
        | .ok buf => fn a buf key)
      acc

/-- The callback `dump(buf, key)` of `_getDump`; `buf.length` throws on `undefined`, is the
number of parameters of a function, and is `undefined` on an object without it, which
makes the offsets `NaN`. -/
def dump (d : DumpState) (buf : Option Value) (key : String) : Except JSError DumpState :=
  match buf with
  | none => .error .typeError
  | some v =>
    .ok { buffers := d.buffers ++ [v]
          blobMap := PlainObj.assign d.blobMap key
            (d.curBufStart, addNum d.curBufStart v.length)
          curBufStart := addNum d.curBufStart v.length }

/-- The method `_getDump()`: the pair `[buffers, blobMap]`. -/
def _getDump (P : Platform) (s : FileBlobStore) :
    Except JSError (List Value × PlainObj (Option Nat × Option Nat)) :=
  match each P s dump { buffers := [], blobMap := [], curBufStart := some 0 } with
  | .error e => .error e
  | .ok d => .ok (d.buffers, d.blobMap)

/-- The `try` block of `save`: the file system reached, whether `lock` was set, and the
exception that left the block, if any. -/
def saveTry (s : FileBlobStore) (fsys : FileSystem) (blobToStore mapToStore : Buffer) :
    FileSystem × Bool × Option JSError :=
  match fs.writeFileSync fsys s._lockPath lockContent true with
  | .error e => (fsys, false, some e)
  | .ok fs1 =>
    match fs.writeFileSync fs1 s._path blobToStore false with
    | .error e => (fs1, true, some e)
    | .ok fs2 =>
      match fs.writeFileSync fs2 s._mapPath mapToStore false with
      | .error e => (fs2, true, some e)
      | .ok fs3 => (fs3, true, none)

/-- The `catch` block of `save`: an error whose code is `EEXIST` is dropped, any other is
thrown again. -/
def saveCatch (error : Option JSError) : Option JSError :=
  match error with
  | none => none
  | some e => if e.code ≠ some "EEXIST" then some e else none

/-- The method `save()`. The dump, `Buffer.concat` and `JSON.stringify` run before the
`try` block: an exception of theirs leaves `save` with the file system untouched. -/
def save (P : Platform) (s : FileBlobStore) (fsys : FileSystem) : SaveOutcome :=
  match _getDump P s with
  | .error e => { fsys := fsys, error := some e }
  | .ok d =>
    match Buffer.concat d.1 with
    | .error e => { fsys := fsys, error := some e }
    | .ok blobToStore =>
      let mapToStore := P.stringify (indexValue d.2)
      match saveTry s fsys blobToStore mapToStore with
      | (fs1, lock, thrown) =>
        let pending := saveCatch thrown
        if lock then
          match fs.unlinkSync fs1 s._lockPath with
          | .error e => { fsys := fs1, error := some e }
          | .ok fs2 => { fsys := fs2, error := pending }
        else { fsys := fs1, error := pending }

end FileBlobStore

/-! ## The methods as steps on the whole state

The same methods once more, each statement of the source in turn, on everything a method
can reach: the fields of the instance, the file system, the calls made to `fs` and the
events emitted. A method returns the state it leaves together with its result. -/

/-- A call to the module `fs`. -/
inductive FsCall where
  | existsSync (path : String)
  | readFileSync (path : String)
  | writeFileSync (path : String) (data : Buffer) (wx : Bool)
  | unlinkSync (path : String)
deriving DecidableEq, Repr

/-- The instance, the file system it lives on, the calls made to `fs` so far, and the
`change` events emitted so far. -/
structure World where
  store : FileBlobStore
  fsys : FileSystem
  calls : List FsCall
  emitted : List ChangeEvent

/-- A call that ended: the state it leaves, and what it returned or threw. -/
structure Ran (α : Type) where
  world : World
  result : Except JSError α

namespace World

/-- The constructor as a step: the instance it builds on a file system, and the calls to
`fs` it makes, all of which read; the second `existsSync` is made only when the first
answers yes. -/
def create (P : Platform) (fsys : FileSystem) (path : String)
    (data : Option (PlainObj Buffer)) : World :=
  let built (storedBlob : Buffer) (storedBlobMap : JVal) (calls : List FsCall) : World :=
    { store :=
        { _path := path
          _data := data.getD []
          _dataProto := none
          _storedBlob := storedBlob
          _storedBlobMap := storedBlobMap }
      fsys := fsys
      calls := calls
      emitted := [] }
  if fs.existsSync fsys path then
    if fs.existsSync fsys (path ++ ".MAP") then
      match fs.readFileSync fsys path with
      | .error _ =>
        built [] (.obj []) [.existsSync path, .existsSync (path ++ ".MAP"), .readFileSync path]
      | .ok storedBlob =>
        match fs.readFileSync fsys (path ++ ".MAP") with
        | .error _ =>
          built [] (.obj [])
            [.existsSync path, .existsSync (path ++ ".MAP"), .readFileSync path,
              .readFileSync (path ++ ".MAP")]
        | .ok text =>
          match P.parse text with
          | none =>
            built [] (.obj [])
              [.existsSync path, .existsSync (path ++ ".MAP"), .readFileSync path,
                .readFileSync (path ++ ".MAP")]
          | some storedBlobMap =>
            built storedBlob storedBlobMap
              [.existsSync path, .existsSync (path ++ ".MAP"), .readFileSync path,
                .readFileSync (path ++ ".MAP")]
    else built [] (.obj []) [.existsSync path, .existsSync (path ++ ".MAP")]
  else built [] (.obj []) [.existsSync path]

/-- Modelled from the spec: the helper `each` of the library over an array, with an
iterator that acts on the state; an exception it throws ends the loop. -/
def forEach {σ β : Type} (xs : List β) (iterator : World → σ → β → Ran σ) (w : World)
    (acc : σ) : Ran σ :=
  match xs with
  | [] => { world := w, result := .ok acc }
  | x :: rest =>
    match iterator w acc x with
    | { world := w1, result := .error e } => { world := w1, result := .error e }
    | { world := w1, result := .ok acc' } => forEach rest iterator w1 acc'

/-- The method `_getFromStorage(key)`. -/
def _getFromStorage (P : Platform) (w : World) (key : String) : Ran (Option Value) :=
  match JVal.getProp P w.store._storedBlobMap key with
  | .error e => { world := w, result := .error e }
  | .ok .inherited => { world := w, result := .error .typeError }
  | .ok (.value v) =>
    if !v.truthy then { world := w, result := .ok none }
    else match JVal.destructurePair v with
      | .error e => { world := w, result := .error e }
      | .ok (start, stop) =>
        { world := w
          result := .ok (some (.buffer (Buffer.slice P w.store._storedBlob start stop))) }

/-- The method `_get(key)`. -/
def _get (P : Platform) (w : World) (key : String) : Ran (Option Value) :=
  match FileBlobStore.readData P w.store key with
  | .error e => { world := w, result := .error e }
  | .ok (some v) =>
    if v.truthy then { world := w, result := .ok (some v) } else _getFromStorage P w key
  | .ok none => _getFromStorage P w key

/-- The method `get(key)` on a string. -/
def get (P : Platform) (w : World) (key : String) : Ran (Option Value) :=
  _get P w key

/-- The method `get(keys)` on an array of keys. -/
def getAll (P : Platform) (w : World) (keys : List String) : Ran Ret :=
  forEach keys
    (fun w1 ret val =>
      match _get P w1 val with
      | { world := w2, result := .error e } => { world := w2, result := .error e }
      | { world := w2, result := .ok v } =>
        { world := w2, result := FileBlobStore.assignRet P ret val v })
    w { own := [], proto := none }

/-- The callback of `set`: read the old value, assign, emit. -/
def setOne (P : Platform) (w : World) (_ : Unit) (entry : String × Buffer) : Ran Unit :=
  match get P w entry.1 with
  | { world := w1, result := .error e } => { world := w1, result := .error e }
  | { world := w1, result := .ok oldBuf } =>
    match FileBlobStore.assignData P w1.store entry.1 entry.2 with
    | .error e => { world := w1, result := .error e }
    | .ok s1 =>
      { world :=
          { w1 with
            store := s1
            emitted := w1.emitted ++ [{ key := entry.1, buf := entry.2, oldBuf := oldBuf }] }
        result := .ok () }

/-- The method `set(key, buf)` and `set(values)`. -/
def set (P : Platform) (w : World) (arg : SetArg) : Ran Unit :=
  match arg with
  | .single key buf =>
    if key = "__proto__" then { world := w, result := .error .typeError }
    else forEach [(key, buf)] (setOne P) w ()
  | .bulk values => forEach (PlainObj.ownEntries values) (setOne P) w ()

/-- The callback of `remove`: the two `delete` statements. -/
def removeOne (w : World) (_ : Unit) (val : String) : Ran Unit :=
  let w1 := { w with store := { w.store with _data := PlainObj.delete w.store._data val } }
  match JVal.deleteProp w1.store._storedBlobMap val with
  | .error e => { world := w1, result := .error e }
  | .ok storedBlobMap =>
    { world := { w1 with store := { w1.store with _storedBlobMap := storedBlobMap } }
      result := .ok () }

/-- The method `remove(keys)` on an array of keys. -/
def removeAll (w : World) (keys : List String) : Ran Unit :=
  forEach keys removeOne w ()

/-- The method `remove(key)` on a string. -/
def remove (w : World) (key : String) : Ran Unit :=
  forEach (toArr key) removeOne w ()

/-- The method `clear()`. -/
def clear (w : World) : Ran Unit :=
  { world :=
      { w with
        store :=
          { w.store with
            _data := [], _dataProto := none, _storedBlob := [], _storedBlobMap := .obj [] } }
    result := .ok () }

/-- The method `_getKeys()`. -/
def _getKeys (w : World) : Ran (List String) :=
  match JVal.ownKeys w.store._storedBlobMap with
  | .error e => { world := w, result := .error e }
  | .ok storedKeys =>
    { world := w, result := .ok (unique (concat (keys w.store._data) storedKeys)) }

/-- The method `each(fn)`: `fn` acts on an accumulator and may throw. -/
def each {σ : Type} (P : Platform) (w : World)
    (fn : σ → Option Value → String → Except JSError σ) (acc : σ) : Ran σ :=
  match _getKeys w with
  | { world := w1, result := .error e } => { world := w1, result := .error e }
  | { world := w1, result := .ok allKeys } =>
    forEach allKeys
      (fun w2 a key =>
        match _get P w2 key with
        | { world := w3, result := .error e } => { world := w3, result := .error e }
        | { world := w3, result := .ok buf } => { world := w3, result := fn a buf key })
      w1 acc

/-- The method `_getDump()`. -/
def _getDump (P : Platform) (w : World) :
    Ran (List Value × PlainObj (Option Nat × Option Nat)) :=
  match each P w FileBlobStore.dump { buffers := [], blobMap := [], curBufStart := some 0 } with
  | { world := w1, result := .error e } => { world := w1, result := .error e }
  | { world := w1, result := .ok d } => { world := w1, result := .ok (d.buffers, d.blobMap) }

/-- The call `fs.writeFileSync(path, data)` or, with `wx`, its exclusive form. -/
def writeFileSync (w : World) (path : String) (data : Buffer) (wx : Bool) : Ran Unit :=
  match fs.writeFileSync w.fsys path data wx with
  | .error e =>
    { world := { w with calls := w.calls ++ [.writeFileSync path data wx] }, result := .error e }
  | .ok fs1 =>
    { world := { w with fsys := fs1, calls := w.calls ++ [.writeFileSync path data wx] }
      result := .ok () }

/-- The call `fs.unlinkSync(path)`. -/
def unlinkSync (w : World) (path : String) : Ran Unit :=
  match fs.unlinkSync w.fsys path with
  | .error e => { world := { w with calls := w.calls ++ [.unlinkSync path] }, result := .error e }
  | .ok fs1 =>
    { world := { w with fsys := fs1, calls := w.calls ++ [.unlinkSync path] }, result := .ok () }

/-- The result of a method that returns nothing: it threw the exception, or returned. -/
def asResult (error : Option JSError) : Except JSError Unit :=
  match error with
  | some e => .error e
  | none => .ok ()

/-- The result of `save` once the `try` block is left with a pending exception, if any:
the `catch` block drops it or throws it again. -/
def caught (thrown : Option JSError) : Except JSError Unit :=
  match FileBlobStore.saveCatch thrown with
  | some e => .error e
  | none => .ok ()

/-- The method `save()`. -/
def save (P : Platform) (w : World) : Ran Unit :=
  match _getDump P w with
  | { world := w1, result := .error e } => { world := w1, result := .error e }
  | { world := w1, result := .ok dump } =>
    match Buffer.concat dump.1 with
    | .error e => { world := w1, result := .error e }
    | .ok blobToStore =>
      let mapToStore := P.stringify (indexValue dump.2)
      match writeFileSync w1 w1.store._lockPath lockContent true with
      | { world := w2, result := .error e } => { world := w2, result := caught (some e) }
      | { world := w2, result := .ok _ } =>
        let tried : World × Option JSError :=
          match writeFileSync w2 w2.store._path blobToStore false with
          | { world := w3, result := .error e } => (w3, some e)
          | { world := w3, result := .ok _ } =>
            match writeFileSync w3 w3.store._mapPath mapToStore false with
            | { world := w4, result := .error e } => (w4, some e)
            | { world := w4, result := .ok _ } => (w4, none)
        match unlinkSync tried.1 tried.1.store._lockPath with
        | { world := w5, result := .error e } => { world := w5, result := .error e }
        | { world := w5, result := .ok _ } => { world := w5, result := caught tried.2 }

end World

/-! ## A reference runtime

A concrete `Platform`, used where a statement needs one: `refStringify` writes JSON text
in UTF-8 as `JSON.stringify` does (integers in decimal), `refParse` reads JSON text back
(it rejects numbers with a fraction or an exponent, which are not integers, and text that
is not well-formed UTF-8). -/

namespace Ref

/-- The UTF-8 bytes of a character. -/
def utf8Encode (c : Char) : List Nat :=
  let n := c.toNat
  if n < 128 then [n]
  else if n < 2048 then [192 + n / 64, 128 + n % 64]
  else if n < 65536 then [224 + n / 4096, 128 + n / 64 % 64, 128 + n % 64]
  else [240 + n / 262144, 128 + n / 4096 % 64, 128 + n / 64 % 64, 128 + n % 64]

/-- The ASCII code of a hexadecimal digit. -/
def hexDigit (d : Nat) : Nat := if d < 10 then 48 + d else 87 + d

/-- The text of one character inside a JSON string. -/
def quoteChar (c : Char) : List Nat :=
  let n := c.toNat
  if n = 34 then [92, 34]
  else if n = 92 then [92, 92]
  else if n = 8 then [92, 98]
  else if n = 12 then [92, 102]
  else if n = 10 then [92, 110]
  else if n = 13 then [92, 114]
  else if n = 9 then [92, 116]
  else if n < 32 then [92, 117, 48, 48, hexDigit (n / 16), hexDigit (n % 16)]
  else utf8Encode c

/-- The text of a JSON string. -/
def quote (s : String) : List Nat :=
  [34] ++ (s.data.map quoteChar).flatten ++ [34]

/-- The decimal text of an integer. -/
def intText (n : Int) : List Nat :=
  match n with
  | .ofNat m => (Nat.toDigits 10 m).map Char.toNat
  | .negSucc m => 45 :: (Nat.toDigits 10 (m + 1)).map Char.toNat

/-- The texts of a list joined by commas. -/
def commaJoin : List (List Nat) → List Nat
  | [] => []
  | [x] => x
  | x :: y :: rest => x ++ [44] ++ commaJoin (y :: rest)

/-- The JSON text of a value, to a given depth. In an array `undefined` is written
`null`; in an object a property whose value is `undefined` is left out. -/
def stringifyTo : Nat → JVal → List Nat
  | 0, _ => []
  | _ + 1, .undefined => [110, 117, 108, 108]
  | _ + 1, .null => [110, 117, 108, 108]
  | _ + 1, .bool true => [116, 114, 117, 101]
  | _ + 1, .bool false => [102, 97, 108, 115, 101]
  | _ + 1, .num n => intText n
  | _ + 1, .str s => quote s
  | d + 1, .arr xs => [91] ++ commaJoin (xs.map (stringifyTo d)) ++ [93]
  | d + 1, .obj kvs =>
    [123] ++ commaJoin (((PlainObj.ownEntries kvs).filter
        (fun p => match p.2 with
          | .undefined => false
          | _ => true)).map
      (fun p => quote p.1 ++ [58] ++ stringifyTo d p.2)) ++ [125]

mutual
/-- The nesting depth of a value. -/
def depth : JVal → Nat
  | .arr xs => depthList xs + 1
  | .obj kvs => depthProps kvs + 1
  | _ => 1
/-- The greatest depth in a list of values. -/
def depthList : List JVal → Nat
  | [] => 0
  | x :: xs => max (depth x) (depthList xs)
/-- The greatest depth among the values of a list of properties. -/
def depthProps : List (String × JVal) → Nat
  | [] => 0
  | (_, x) :: kvs => max (depth x) (depthProps kvs)
end

/-- The reference `JSON.stringify`, encoded in UTF-8. -/
def refStringify (v : JVal) : Buffer := stringifyTo (depth v) v

/-- The text after leading JSON white space. -/
def skipWs : List Nat → List Nat
  | 32 :: r => skipWs r
  | 9 :: r => skipWs r
  | 10 :: r => skipWs r
  | 13 :: r => skipWs r
  | r => r

/-- The value of a hexadecimal digit. -/
def hexValue (b : Nat) : Option Nat :=
  if 48 ≤ b ∧ b ≤ 57 then some (b - 48)
  else if 97 ≤ b ∧ b ≤ 102 then some (b - 87)
  else if 65 ≤ b ∧ b ≤ 70 then some (b - 55)
  else none

/-- The code unit spelled by four hexadecimal digits. -/
def hex4 (a b c d : Nat) : Option Nat :=
  match hexValue a, hexValue b, hexValue c, hexValue d with
  | some w, some x, some y, some z => some (((w * 16 + x) * 16 + y) * 16 + z)
  | _, _, _, _ => none

/-- The character of a code point, when it is one. -/
def charOf (n : Nat) : Option Char :=
  if (Char.ofNat n).toNat = n then some (Char.ofNat n) else none

/-- Whether a byte continues a UTF-8 sequence. -/
def isCont (b : Nat) : Bool := decide (128 ≤ b ∧ b < 192)

/-- One character read from the inside of a JSON string, with the text that follows it. -/
def readChar : List Nat → Option (Char × List Nat)
  | 92 :: 117 :: a :: b :: c :: d :: r =>
    match hex4 a b c d with
    | none => none
    | some hi =>
      if 55296 ≤ hi ∧ hi < 56320 then
        match r with
        | 92 :: 117 :: e :: f :: g :: h :: r2 =>
          match hex4 e f g h with
          | some lo =>
            if 56320 ≤ lo ∧ lo < 57344 then
              (charOf (65536 + (hi - 55296) * 1024 + (lo - 56320))).map (fun ch => (ch, r2))
            else none
          | none => none
        | _ => none
      else (charOf hi).map (fun ch => (ch, r))
  | 92 :: e :: r =>
    if e = 34 ∨ e = 92 ∨ e = 47 then some (Char.ofNat e, r)
    else if e = 98 then some (Char.ofNat 8, r)
    else if e = 102 then some (Char.ofNat 12, r)
    else if e = 110 then some (Char.ofNat 10, r)
    else if e = 114 then some (Char.ofNat 13, r)
    else if e = 116 then some (Char.ofNat 9, r)
    else none
  | b :: r =>
    if b < 32 ∨ b = 34 ∨ b = 92 then none
    else if b < 128 then some (Char.ofNat b, r)
    else if 194 ≤ b ∧ b < 224 then
      match r with
      | c :: r2 => if isCont c then (charOf ((b - 192) * 64 + (c - 128))).map (fun ch => (ch, r2))
        else none
      | _ => none
    else if 224 ≤ b ∧ b < 240 then
      match r with
      | c :: d :: r2 =>
        let n := ((b - 224) * 64 + (c - 128)) * 64 + (d - 128)
        if isCont c && isCont d && decide (2048 ≤ n) then (charOf n).map (fun ch => (ch, r2))
        else none
      | _ => none
    else if 240 ≤ b ∧ b < 245 then
      match r with
      | c :: d :: e :: r2 =>
        let n := (((b - 240) * 64 + (c - 128)) * 64 + (d - 128)) * 64 + (e - 128)
        if isCont c && isCont d && isCont e && decide (65536 ≤ n) then
          (charOf n).map (fun ch => (ch, r2))
        else none
      | _ => none
    else none
  | [] => none

/-- The string whose text follows an opening quote, with the text after its closing
quote. -/
def readString : Nat → List Nat → List Char → Option (String × List Nat)
  | 0, _, _ => none
  | _ + 1, 34 :: r, acc => some (String.mk acc.reverse, r)
  | fuel + 1, bs, acc =>
    match readChar bs with
    | none => none
    | some (ch, r) => readString fuel r (ch :: acc)

/-- Whether a byte is a decimal digit. -/
def isDigit (b : Nat) : Bool := decide (48 ≤ b ∧ b ≤ 57)

/-- The integer at the head of a text; a leading zero, a fraction and an exponent are
refused. -/
def readNat (bs : List Nat) : Option (Nat × List Nat) :=
  match bs.span isDigit with
  | ([], _) => none
  | (48 :: _ :: _, _) => none
  | (ds, rest) =>
    match rest with
    | 46 :: _ => none
    | 101 :: _ => none
    | 69 :: _ => none
    | _ => some (ds.foldl (fun acc d => 10 * acc + (d - 48)) 0, rest)

mutual
/-- The value at the head of a text, with the text that follows it. -/
def readValue : Nat → List Nat → Option (JVal × List Nat)
  | 0, _ => none
  | fuel + 1, bs =>
    match skipWs bs with
    | 110 :: 117 :: 108 :: 108 :: r => some (.null, r)
    | 116 :: 114 :: 117 :: 101 :: r => some (.bool true, r)
    | 102 :: 97 :: 108 :: 115 :: 101 :: r => some (.bool false, r)
    | 34 :: r => (readString (r.length + 1) r []).map (fun p => (.str p.1, p.2))
    | 91 :: r =>
      match skipWs r with
      | 93 :: r2 => some (.arr [], r2)
      | r2 => readElements fuel r2 []
    | 123 :: r =>
      match skipWs r with
      | 125 :: r2 => some (.obj [], r2)
      | r2 => readMembers fuel r2 []
    | 45 :: r => (readNat r).map (fun p => (.num (-(p.1 : Int)), p.2))
    | r => (readNat r).map (fun p => (.num (p.1 : Int), p.2))
/-- The elements of an array up to its closing bracket. -/
def readElements : Nat → List Nat → List JVal → Option (JVal × List Nat)
  | 0, _, _ => none
  | fuel + 1, bs, acc =>
    match readValue fuel bs with
    | none => none
    | some (v, r) =>
      match skipWs r with
      | 44 :: r2 => readElements fuel r2 (acc ++ [v])
      | 93 :: r2 => some (.arr (acc ++ [v]), r2)
      | _ => none
/-- The members of an object up to its closing brace; a repeated key keeps its first
place and takes the last value. -/
def readMembers : Nat → List Nat → List (String × JVal) → Option (JVal × List Nat)
  | 0, _, _ => none
  | fuel + 1, bs, acc =>
    match skipWs bs with
    | 34 :: r =>
      match readString (r.length + 1) r [] with
      | none => none
      | some (k, r2) =>
        match skipWs r2 with
        | 58 :: r3 =>
          match readValue fuel r3 with
          | none => none
          | some (v, r4) =>
            match skipWs r4 with
            | 44 :: r5 => readMembers fuel r5 (PlainObj.set acc k v)
            | 125 :: r5 => some (.obj (PlainObj.set acc k v), r5)
            | _ => none
        | _ => none
    | _ => none
end

/-- The reference `JSON.parse` on the bytes of a file. -/
def refParse (text : Buffer) : Option JVal :=
  match readValue (2 * text.length + 2) text with
  | none => none
  | some (v, r) => if (skipWs r).isEmpty then some v else none

/-- The reference conversion of a string to a number: a decimal integer between optional
white space, and zero for a blank string. -/
def refStrToNumber (s : String) : Option Int :=
  match skipWs (s.data.map Char.toNat) with
  | [] => some 0
  | 45 :: r =>
    match r.span isDigit with
    | ([], _) => none
    | (ds, rest) =>
      if (skipWs rest).isEmpty then some (-((ds.foldl (fun acc d => 10 * acc + (d - 48)) 0 : Nat) : Int))
      else none
  | r =>
    match r.span isDigit with
    | ([], _) => none
    | (ds, rest) =>
      if (skipWs rest).isEmpty then some ((ds.foldl (fun acc d => 10 * acc + (d - 48)) 0 : Nat) : Int)
      else none

end Ref

/-- The bytes of an ASCII text. -/
def Ref.asciiText (s : String) : Buffer := s.data.map Char.toNat

/-- The reference for a read through a prototype that is not `Object.prototype`. Through a
buffer: `__proto__` gives the buffer, the accessors of a typed array throw on an object
that is not one, an index inside the buffer gives its byte (a number), and the names of
`Object.prototype` give its members; the methods the prototypes of a buffer add are not
listed. -/
def Ref.refReadThrough (proto : Value) (key : String) : Except JSError (Option Value) :=
  match proto with
  | .buffer b =>
    if key = "__proto__" then .ok (some (.buffer b))
    else if key = "length" ∨ key = "byteLength" ∨ key = "byteOffset" ∨ key = "buffer" then
      .error .typeError
    else match arrayIndex key with
      | some i =>
        if i < b.length then .ok (some (.other (b.getD i 0 != 0) none false)) else .ok none
      | none => .ok (if isInherited key then some (.member key) else none)
  | _ => .ok (if isInherited key then some (.member key) else none)

/-- The reference for a write through a prototype that is not `Object.prototype`. Through
a buffer an index outside the buffer is ignored, as is a key naming an accessor of a typed
array; any other key becomes an own property. -/
def Ref.refWriteThrough (proto : Value) (key : String) : Except JSError Bool :=
  match proto with
  | .buffer b =>
    if key = "length" ∨ key = "byteLength" ∨ key = "byteOffset" ∨ key = "buffer" then .ok false
    else match arrayIndex key with
      | some i => .ok (decide (i < b.length))
      | none => .ok true
  | _ => .ok true

/-- The reference runtime. Of the prototypes of arrays, strings, numbers and booleans it
knows the members they share with `Object.prototype`. -/
def refPlatform : Platform :=
  { parse := Ref.refParse
    stringify := Ref.refStringify
    strToNumber := Ref.refStrToNumber
    extraMember := fun _ _ => false
    readThrough := Ref.refReadThrough
    writeThrough := Ref.refWriteThrough }

/-! ## Notions used in the statements -/

/-- A stored index as the data model has it: an object each value of which is an array
`[start, end]` of two numbers. -/
def JVal.isIndex : JVal → Bool
  | .obj kvs =>
    kvs.all (fun p => match p.2 with
      | .arr [.num _, .num _] => true
      | _ => false)
  | _ => false

/-- A store whose stored index is one of the data model. -/
def WellFormed (s : FileBlobStore) : Prop := s._storedBlobMap.isIndex = true

instance (s : FileBlobStore) : Decidable (WellFormed s) := by
  unfold WellFormed
  exact inferInstance

/-- A store whose overlay is a plain object: its prototype is `Object.prototype`, as it is
until an assignment to the key `__proto__` of the overlay. -/
def PlainOverlay (s : FileBlobStore) : Prop := s._dataProto = none

instance (s : FileBlobStore) : Decidable (PlainOverlay s) := by
  unfold PlainOverlay
  exact inferInstance

/-- No key of the overlay or of the stored index names a member of `Object.prototype`. -/
def plainKeys (s : FileBlobStore) : Bool :=
  match FileBlobStore._getKeys s with
  | .ok ks => ks.all (fun k => !isInherited k)
  | .error _ => true

/-- A write at the path succeeds: the system does not refuse it and the path is not a
directory. -/
def fs.canWrite (fsys : FileSystem) (path : String) : Bool :=
  (fs.refusal fsys path).isNone && decide (fsys.entries path ≠ some .dir)

/-- The ranges, in order, tile the interval from `a` to `n`: the first starts at `a`, each
starts where the one before ends, no range is reversed, the last ends at `n`. -/
def tiles : Nat → List (Nat × Nat) → Nat → Bool
  | a, [], n => decide (a = n)
  | a, (s, e) :: r, n => decide (s = a) && decide (s ≤ e) && tiles e r n

/-- The runtime reads back the index it writes: `JSON.parse` of `JSON.stringify` of an
offset map is the map, its keys created in the order they were enumerated. -/
def Platform.RoundTrips (P : Platform) (m : PlainObj (Option Nat × Option Nat)) : Prop :=
  P.parse (P.stringify (indexValue m)) = some (indexValue (PlainObj.ownEntries m))

/-- A file system with no files and no faults. -/
def emptyFS : FileSystem := { entries := fun _ => none, writeFault := fun _ => none }

/-- The offset map of a list of keyed blobs laid end to end from an offset on. -/
def layout : Nat → List (String × Buffer) → PlainObj (Nat × Nat)
  | _, [] => []
  | off, (k, b) :: r => (k, (off, off + b.length)) :: layout (off + b.length) r

/-- An offset map of numbers as the object `blobMap` holds it. -/
def numIndex (m : PlainObj (Nat × Nat)) : PlainObj (Option Nat × Option Nat) :=
  m.map (fun p => (p.1, (some p.2.1, some p.2.2)))

/-! ## Example stores and file systems -/

/-- A store over the base path `data` with no files on disk. -/
def demoStore : FileBlobStore := FileBlobStore.create refPlatform emptyFS "data" none

/-- The bytes of `licia`. -/
def liciaBytes : Buffer := [108, 105, 99, 105, 97]

/-- The store after `set('name', Buffer.from('licia'))`. -/
def nameStore : FileBlobStore :=
  (FileBlobStore.set refPlatform demoStore (.single "name" liciaBytes)).store

/-- The store after `set('a', [1, 2])`, `set('b', [3])`, `remove('a')`. -/
def abStore : FileBlobStore :=
  (FileBlobStore.remove
    (FileBlobStore.set refPlatform
      (FileBlobStore.set refPlatform demoStore (.single "a" [1, 2])).store
      (.single "b" [3])).store "a").store

/-- The files `save` leaves for `nameStore`. -/
def savedFS : FileSystem := (FileBlobStore.save refPlatform nameStore emptyFS).fsys

/-- The store reopened from the saved files, with `set('extra', [7])` on top. -/
def reopenedStore : FileBlobStore :=
  (FileBlobStore.set refPlatform (FileBlobStore.create refPlatform savedFS "data" none)
    (.single "extra" [7])).store

/-- The saved files with a lock file left in place. -/
def lockedFS : FileSystem := fs.store savedFS "data.LOCK" lockContent

/-- An empty file system that refuses to write at one path, with a given error code. -/
def refusingFS (path code : String) : FileSystem :=
  { entries := fun _ => none
    writeFault := fun p => if p = path then some code else none }

/-- A blob file next to an index file that is not JSON. -/
def corruptFS : FileSystem :=
  fs.store (fs.store emptyFS "data" [1, 2, 3]) "data.MAP" [123, 110, 111]

/-- A blob file next to an index file whose text is the JSON `null`. -/
def nullIndexFS : FileSystem :=
  fs.store (fs.store emptyFS "data" [1, 2, 3]) "data.MAP" (Ref.asciiText "null")

/-- A blob file next to an index file whose text is the JSON object with `a` at `5`. -/
def numberIndexFS : FileSystem :=
  fs.store (fs.store emptyFS "data" [1, 2, 3]) "data.MAP" (Ref.asciiText "\x7b\"a\":5\x7d")

/-- The store after `set('a', [])`, `set('b', [1])`: the blob of `a` is empty. -/
def emptyBlobStore : FileBlobStore :=
  (FileBlobStore.set refPlatform
    (FileBlobStore.set refPlatform demoStore (.single "a" [])).store (.single "b" [1])).store

/-- The files left by a store that did `set('1', [1])` and `save()`. -/
def oneFS : FileSystem :=
  (FileBlobStore.save refPlatform
    (FileBlobStore.set refPlatform demoStore (.single "1" [1])).store emptyFS).fsys

/-- The store opened from those files, after `set('b', [2])`: the key `b` is in the overlay,
the key `1` in the stored index. -/
def mixedStore : FileBlobStore :=
  (FileBlobStore.set refPlatform (FileBlobStore.create refPlatform oneFS "data" none)
    (.single "b" [2])).store

/-- The files `save` leaves for `mixedStore`. -/
def mixedFS : FileSystem := (FileBlobStore.save refPlatform mixedStore oneFS).fsys

/-- The store opened from the files of `mixedStore`, with an empty overlay. -/
def mixedReopened : FileBlobStore := FileBlobStore.create refPlatform mixedFS "data" none

/-- The store after `set('constructor', Buffer.from('x'))`. -/
def constructorStore : FileBlobStore :=
  (FileBlobStore.set refPlatform demoStore (.single "constructor" [120])).store

/-- The files `save` leaves for `constructorStore`. -/
def constructorFS : FileSystem :=
  (FileBlobStore.save refPlatform constructorStore emptyFS).fsys

/-- The store opened from the files of `constructorStore`. -/
def constructorReopened : FileBlobStore :=
  FileBlobStore.create refPlatform constructorFS "data" none

/-- The files left by a store that did `set('toString', [1])` and `save()`. -/
def toStringFS : FileSystem :=
  (FileBlobStore.save refPlatform
    (FileBlobStore.set refPlatform demoStore (.single "toString" [1])).store emptyFS).fsys

/-- The store opened from those files: its stored index has the key `toString`. -/
def toStringStore : FileBlobStore := FileBlobStore.create refPlatform toStringFS "data" none

/-- Those files with a lock file left in place. -/
def toStringLockedFS : FileSystem := fs.store toStringFS "data.LOCK" lockContent

/-- The store constructed with the object `{ ['__proto__']: Buffer.from([1]) }` for its
data: the overlay has the own property `__proto__`. -/
def protoDataStore : FileBlobStore :=
  FileBlobStore.create refPlatform emptyFS "data" (some [("__proto__", [1])])

/-- The world of the example store on the empty file system, before any call. -/
def nameWorld : World :=
  { store := nameStore, fsys := emptyFS, calls := [], emitted := [] }

/-! ## Calls in sequence -/

/-- The calls `set(k, m[k])` for the entries of a mapping, one after the other; a call that
throws ends the sequence. The events of the calls are collected in order. -/
def FileBlobStore.setOneByOne (P : Platform) :
    List (String × Buffer) → FileBlobStore → List ChangeEvent → Outcome
  | [], s, evs => { store := s, events := evs, error := none }
  | (k, b) :: rest, s, evs =>
    match (FileBlobStore.set P s (.single k b)).error with
    | some e =>
      { store := (FileBlobStore.set P s (.single k b)).store
        events := evs ++ (FileBlobStore.set P s (.single k b)).events
        error := some e }
    | none =>
      FileBlobStore.setOneByOne P rest (FileBlobStore.set P s (.single k b)).store
        (evs ++ (FileBlobStore.set P s (.single k b)).events)

/-- The single-key calls `set(k, m[k])` for each key of the mapping `m` in its iteration
order. -/
def FileBlobStore.setRepeated (P : Platform) (s : FileBlobStore) (m : PlainObj Buffer) :
    Outcome :=
  FileBlobStore.setOneByOne P (PlainObj.ownEntries m) s []

/-! ## Plain objects -/

namespace PlainObj

variable {α : Type}

theorem get_set_self (o : PlainObj α) (k : String) (v : α) : get (set o k v) k = some v := by
  induction o with
  | nil => simp [set, get]
  | cons p o ih =>
    obtain ⟨k', v'⟩ := p
    by_cases h : k' = k
    · simp [set, get, h]
    · simp [set, get, h, ih]

theorem get_set_of_ne (o : PlainObj α) {k j : String} (v : α) (h : k ≠ j) :
    get (set o k v) j = get o j := by
  induction o with
  | nil => simp [set, get, h]
  | cons p o ih =>
    obtain ⟨k', v'⟩ := p
    by_cases hk : k' = k
    · subst hk
      simp [set, get, h]
    · by_cases hj : k' = j
      · subst hj
        simp [set, get, hk]
      · simp [set, get, hk, hj, ih]

theorem get_eq_none_iff (o : PlainObj α) (k : String) :
    get o k = none ↔ k ∉ o.map Prod.fst := by
  induction o with
  | nil => simp [get]
  | cons p o ih =>
    obtain ⟨k', v'⟩ := p
    by_cases h : k' = k
    · simp [get, h]
    · simp only [get, h, if_false, ih, List.map_cons, List.mem_cons, not_or]
      constructor
      · intro hk
        exact ⟨fun e => h e.symm, hk⟩
      · intro hk
        exact hk.2

theorem mem_of_get {o : PlainObj α} {k : String} {v : α} (h : get o k = some v) :
    (k, v) ∈ o := by
  induction o with
  | nil => simp [get] at h
  | cons p o ih =>
    obtain ⟨k', v'⟩ := p
    by_cases hk : k' = k
    · simp only [get, hk, if_true, Option.some.injEq] at h
      simp [hk, h]
    · simp only [get, hk, if_false] at h
      exact List.mem_cons_of_mem _ (ih h)

theorem get_of_mem_nodup {o : PlainObj α} {k : String} {v : α}
    (hn : (o.map Prod.fst).Nodup) (h : (k, v) ∈ o) : get o k = some v := by
  induction o with
  | nil => simp at h
  | cons p o ih =>
    obtain ⟨k', v'⟩ := p
    simp only [List.map_cons, List.nodup_cons] at hn
    rcases List.mem_cons.mp h with h1 | h1
    · cases h1
      simp [get]
    · have hk : k' ≠ k := by
        intro e
        subst e
        exact hn.1 (List.mem_map.mpr ⟨(k', v), h1, rfl⟩)
      simp only [get, hk, if_false]
      exact ih hn.2 h1

theorem get_delete_self (o : PlainObj α) (k : String) : get (delete o k) k = none := by
  rw [get_eq_none_iff]
  simp [delete, List.mem_map, List.mem_filter]

theorem get_delete_of_ne (o : PlainObj α) {k j : String} (h : k ≠ j) :
    get (delete o k) j = get o j := by
  induction o with
  | nil => simp [delete, get]
  | cons p o ih =>
    obtain ⟨k', v'⟩ := p
    by_cases hk : k' = k
    · subst hk
      have : get (delete ((k', v') :: o) k') j = get (delete o k') j := by
        simp [delete]
      rw [this, ih]
      simp [get, h]
    · have : delete ((k', v') :: o) k = (k', v') :: delete o k := by
        simp [delete, hk]
      rw [this]
      by_cases hj : k' = j
      · simp [get, hj]
      · simp [get, hj, ih]

theorem set_of_not_mem {o : PlainObj α} {k : String} (v : α) (h : k ∉ o.map Prod.fst) :
    set o k v = o ++ [(k, v)] := by
  induction o with
  | nil => simp [set]
  | cons p o ih =>
    obtain ⟨k', v'⟩ := p
    simp only [List.map_cons, List.mem_cons, not_or] at h
    have hk : k' ≠ k := fun e => h.1 e.symm
    simp [set, hk, ih h.2]

theorem ownEntries_perm (o : PlainObj α) : (ownEntries o).Perm o := by
  unfold ownEntries
  exact ((List.perm_insertionSort _ _).append_right _).trans (List.filter_append_perm _ _)

theorem keys_perm (o : PlainObj α) : (keys o).Perm (o.map Prod.fst) :=
  (ownEntries_perm o).map _

theorem mem_keys (o : PlainObj α) (k : String) : k ∈ keys o ↔ get o k ≠ none := by
  rw [(keys_perm o).mem_iff, Ne, get_eq_none_iff, not_not]

theorem get_ownEntries {o : PlainObj α} (hn : (o.map Prod.fst).Nodup) (k : String) :
    get (ownEntries o) k = get o k := by
  have hp := ownEntries_perm o
  have hn2 : ((ownEntries o).map Prod.fst).Nodup := ((hp.map Prod.fst).nodup_iff).mpr hn
  cases h : get o k with
  | none =>
    rw [get_eq_none_iff] at h ⊢
    intro hm
    exact h ((hp.map Prod.fst).mem_iff.mp hm)
  | some v =>
    exact get_of_mem_nodup hn2 (hp.mem_iff.mpr (mem_of_get h))

end PlainObj

/-! ## Keys, paths and slices -/

theorem mem_unique (l : List String) (x : String) : x ∈ unique l ↔ x ∈ l := by
  induction l with
  | nil => simp [unique]
  | cons y l ih =>
    by_cases h : y ∈ l
    · simp only [unique, h, if_true, ih, List.mem_cons]
      constructor
      · exact Or.inr
      · rintro (rfl | h1)
        · exact h
        · exact h1
    · simp [unique, h, ih]

theorem nodup_unique (l : List String) : (unique l).Nodup := by
  induction l with
  | nil => simp [unique]
  | cons y l ih =>
    by_cases h : y ∈ l
    · simp [unique, h, ih]
    · simp [unique, h, ih, mem_unique]

theorem length_map_suffix : ".MAP".length = 4 := by decide

theorem length_lock_suffix : ".LOCK".length = 5 := by decide

theorem path_ne_lockPath (s : FileBlobStore) : s._path ≠ s._lockPath := by
  intro h
  have := congrArg String.length h
  simp [FileBlobStore._lockPath, String.length_append, length_lock_suffix] at this

theorem mapPath_ne_lockPath (s : FileBlobStore) : s._mapPath ≠ s._lockPath := by
  intro h
  have := congrArg String.length h
  simp [FileBlobStore._lockPath, FileBlobStore._mapPath, String.length_append,
    length_lock_suffix, length_map_suffix] at this

theorem path_ne_mapPath (s : FileBlobStore) : s._path ≠ s._mapPath := by
  intro h
  have := congrArg String.length h
  simp [FileBlobStore._mapPath, String.length_append, length_map_suffix] at this

theorem toNumber_num (P : Platform) (n : Int) : JVal.toNumber P (.num n) = some n := by
  simp [JVal.toNumber]

theorem adjustOffset_of_le {a len : Nat} (h : a ≤ len) :
    adjustOffset (some (a : Int)) len = a := by
  unfold adjustOffset
  have h0 : ¬ ((a : Int) < 0) := by omega
  simp only [h0, if_false]
  by_cases h1 : (a : Int) < (len : Int)
  · simp [h1]
  · simp only [h1, if_false]
    omega

theorem slice_of_le (P : Platform) (buf : Buffer) {a b : Nat} (hab : a ≤ b)
    (hb : b ≤ buf.length) :
    Buffer.slice P buf (.num a) (.num b) = (buf.drop a).take (b - a) := by
  simp only [Buffer.slice, toNumber_num, adjustOffset_of_le hb,
    adjustOffset_of_le (le_trans hab hb)]

theorem slice_append (P : Platform) (pre v post : Buffer) :
    Buffer.slice P (pre ++ v ++ post) (.num pre.length)
      (.num ((pre.length + v.length : Nat) : Int)) = v := by
  rw [slice_of_le P _ (Nat.le_add_right _ _) (by simp)]
  simp [List.append_assoc]


theorem PlainObj.assign_of_ne {α : Type} (o : PlainObj α) {k : String} (v : α)
    (h : k ≠ "__proto__") : PlainObj.assign o k v = PlainObj.set o k v := by
  simp [PlainObj.assign, h]

theorem isInherited_proto : isInherited "__proto__" = true := by decide

theorem ne_proto_of_not_inherited {k : String} (h : isInherited k = false) :
    k ≠ "__proto__" := by
  intro e
  subst e
  simp [isInherited_proto] at h

/-! ## Lookups -/

namespace FileBlobStore

theorem isIndex_obj {v : JVal} (h : v.isIndex = true) :
    ∃ kvs, v = .obj kvs ∧ ∀ p ∈ kvs, ∃ a b : Int, p.2 = .arr [.num a, .num b] := by
  cases v with
  | obj kvs =>
    refine ⟨kvs, rfl, ?_⟩
    intro p hp
    simp only [JVal.isIndex, List.all_eq_true] at h
    have h1 := h p hp
    split at h1
    · next a b heq => exact ⟨a, b, heq⟩
    · simp at h1
  | _ => simp [JVal.isIndex] at h

/-- An own property of the overlay is what `_get` returns. -/
theorem get_overlay (P : Platform) (s : FileBlobStore) {k : String} {b : Buffer}
    (h : PlainObj.get s._data k = some b) : _get P s k = .ok (some (.buffer b)) := by
  simp [_get, readData, h, Value.truthy]

/-- On a plain overlay a key that is no own property and names a member of
`Object.prototype` resolves to that member, whatever the stored index holds. -/
theorem get_member (P : Platform) (s : FileBlobStore) {k : String}
    (h : PlainObj.get s._data k = none) (hp : s._dataProto = none)
    (hk : isInherited k = true) : _get P s k = .ok (some (.member k)) := by
  simp [_get, readData, h, hp, hk, Value.truthy]

/-- On a plain overlay any other key that is no own property is looked up in the stored
index. -/
theorem get_storage (P : Platform) (s : FileBlobStore) {k : String}
    (h : PlainObj.get s._data k = none) (hp : s._dataProto = none)
    (hk : isInherited k = false) : _get P s k = _getFromStorage P s k := by
  simp [_get, readData, h, hp, hk]

theorem getFromStorage_none (P : Platform) (s : FileBlobStore) {kvs : List (String × JVal)}
    {k : String} (hs : s._storedBlobMap = .obj kvs) (hk : PlainObj.get kvs k = none)
    (hi : isInherited k = false) : _getFromStorage P s k = .ok none := by
  simp [_getFromStorage, hs, JVal.getProp, hk, JVal.protoProp, hi, JVal.truthy]

theorem getFromStorage_pair (P : Platform) (s : FileBlobStore) {kvs : List (String × JVal)}
    {k : String} {a b : Int} (hs : s._storedBlobMap = .obj kvs)
    (hk : PlainObj.get kvs k = some (.arr [.num a, .num b])) :
    _getFromStorage P s k
      = .ok (some (.buffer (Buffer.slice P s._storedBlob (.num a) (.num b)))) := by
  simp [_getFromStorage, hs, JVal.getProp, hk, JVal.truthy, JVal.destructurePair]

/-- In a store of the data model a key of the overlay or of the stored index resolves to a
value: to a buffer, unless it is only in the stored index and names a member of
`Object.prototype`. -/
theorem wf_get_some (P : Platform) (s : FileBlobStore) (hwf : WellFormed s)
    (hpo : PlainOverlay s)
    {kvs : List (String × JVal)} (hs : s._storedBlobMap = .obj kvs) {k : String}
    (hk : PlainObj.get s._data k ≠ none ∨ PlainObj.get kvs k ≠ none) :
    ∃ v, _get P s k = .ok (some v) ∧
      ((PlainObj.get s._data k ≠ none ∨ isInherited k = false) → ∃ b, v = .buffer b) := by
  obtain ⟨kvs2, hs2, hall⟩ := isIndex_obj hwf
  have e : kvs2 = kvs := by
    rw [hs] at hs2
    cases hs2
    rfl
  subst e
  cases hd : PlainObj.get s._data k with
  | some b => exact ⟨_, get_overlay P s hd, fun _ => ⟨b, rfl⟩⟩
  | none =>
    cases hi : isInherited k with
    | true =>
      refine ⟨_, get_member P s hd hpo hi, ?_⟩
      rintro (h | h)
      · exact absurd rfl h
      · cases h
    | false =>
      have hk2 : PlainObj.get kvs2 k ≠ none := by
        rcases hk with h | h
        · exact absurd hd h
        · exact h
      obtain ⟨v, hv⟩ := Option.ne_none_iff_exists'.mp hk2
      obtain ⟨a, b, hab⟩ := hall (k, v) (PlainObj.mem_of_get hv)
      simp only at hab
      subst hab
      exact ⟨_, by rw [get_storage P s hd hpo hi, getFromStorage_pair P s hs hv],
        fun _ => ⟨_, rfl⟩⟩

/-- In a store of the data model a key that is in neither the overlay nor the stored
index resolves to `undefined`, unless it names a member of `Object.prototype`. -/
theorem wf_get_absent (P : Platform) (s : FileBlobStore) (hpo : PlainOverlay s)
    {kvs : List (String × JVal)} (hs : s._storedBlobMap = .obj kvs) {k : String}
    (hd : PlainObj.get s._data k = none) (hk : PlainObj.get kvs k = none)
    (hi : isInherited k = false) : _get P s k = .ok none := by
  rw [get_storage P s hd hpo hi, getFromStorage_none P s hs hk hi]

theorem getKeys_obj (s : FileBlobStore) {kvs : List (String × JVal)}
    (hs : s._storedBlobMap = .obj kvs) :
    _getKeys s = .ok (unique (concat (keys s._data) (PlainObj.keys kvs))) := by
  simp [_getKeys, hs, JVal.ownKeys]

theorem mem_mergedKeys (s : FileBlobStore) (kvs : List (String × JVal)) (k : String) :
    k ∈ unique (concat (keys s._data) (PlainObj.keys kvs)) ↔
      (PlainObj.get s._data k ≠ none ∨ PlainObj.get kvs k ≠ none) := by
  simp only [mem_unique, concat, keys, List.mem_append, PlainObj.mem_keys]

theorem exists_forall₂ {β γ : Type} {R : β → γ → Prop} (l : List β)
    (h : ∀ a ∈ l, ∃ b, R a b) : ∃ l2, List.Forall₂ R l l2 := by
  induction l with
  | nil => exact ⟨[], List.Forall₂.nil⟩
  | cons a l ih =>
    obtain ⟨b, hb⟩ := h a (List.mem_cons_self _ _)
    obtain ⟨l2, hl⟩ := ih (fun x hx => h x (List.mem_cons_of_mem _ hx))
    exact ⟨b :: l2, List.Forall₂.cons hb hl⟩

/-- For a store of the data model the merged key set is computed, has no duplicates, and
every key of it resolves to a value. -/
theorem wf_resolved (P : Platform) (s : FileBlobStore) (hwf : WellFormed s)
    (hpo : PlainOverlay s) :
    ∃ kvs ks vals, s._storedBlobMap = .obj kvs ∧ _getKeys s = .ok ks ∧ ks.Nodup ∧
      (∀ k, k ∈ ks ↔ (PlainObj.get s._data k ≠ none ∨ PlainObj.get kvs k ≠ none)) ∧
      List.Forall₂ (fun k v => _get P s k = .ok (some v)) ks vals := by
  obtain ⟨kvs, hs, _⟩ := isIndex_obj hwf
  have hmem : ∀ k, k ∈ unique (concat (keys s._data) (PlainObj.keys kvs)) →
      ∃ v, _get P s k = .ok (some v) := by
    intro k hk
    obtain ⟨v, hv, _⟩ := wf_get_some P s hwf hpo hs ((mem_mergedKeys s kvs k).mp hk)
    exact ⟨v, hv⟩
  obtain ⟨vals, hvals⟩ := exists_forall₂ _ hmem
  exact ⟨kvs, _, vals, hs, getKeys_obj s hs, nodup_unique _, mem_mergedKeys s kvs, hvals⟩

/-- What `plainKeys` says of the merged key set. -/
theorem plainKeys_spec {s : FileBlobStore} (hp : plainKeys s = true) {ks : List String}
    (hks : _getKeys s = .ok ks) : ∀ k ∈ ks, isInherited k = false := by
  intro k hk
  simp only [plainKeys, hks, List.all_eq_true, Bool.not_eq_true'] at hp
  exact hp k hk

/-- For a store of the data model none of whose keys names a member of `Object.prototype`,
every key of the merged key set resolves to a buffer and every other key that names no
such member to `undefined`. -/
theorem plain_resolved (P : Platform) (s : FileBlobStore) (hwf : WellFormed s)
    (hpo : PlainOverlay s)
    (hp : plainKeys s = true) :
    ∃ (ks : List String) (vals : List Buffer), _getKeys s = .ok ks ∧ ks.Nodup ∧
      (∀ k ∈ ks, isInherited k = false) ∧
      List.Forall₂ (fun k v => _get P s k = .ok (some (.buffer v))) ks vals ∧
      ∀ k, k ∉ ks → isInherited k = false → _get P s k = .ok none := by
  obtain ⟨kvs, hs, _⟩ := isIndex_obj hwf
  have hks := getKeys_obj s hs
  have hni := plainKeys_spec hp hks
  have hmem : ∀ k, k ∈ unique (concat (keys s._data) (PlainObj.keys kvs)) →
      ∃ b, _get P s k = .ok (some (.buffer b)) := by
    intro k hk
    obtain ⟨v, hv, hb⟩ := wf_get_some P s hwf hpo hs ((mem_mergedKeys s kvs k).mp hk)
    obtain ⟨b, e⟩ := hb (Or.inr (hni k hk))
    subst e
    exact ⟨b, hv⟩
  obtain ⟨vals, hvals⟩ := exists_forall₂ _ hmem
  refine ⟨_, vals, hks, nodup_unique _, hni, hvals, ?_⟩
  intro k hk hi
  have h1 : ¬ (PlainObj.get s._data k ≠ none ∨ PlainObj.get kvs k ≠ none) :=
    fun h => hk ((mem_mergedKeys s kvs k).mpr h)
  simp only [not_or, not_not] at h1
  exact wf_get_absent P s hpo hs h1.1 h1.2 hi

end FileBlobStore

/-! ## The dump -/

theorem layout_keys (off : Nat) (kvs : List (String × Buffer)) :
    (layout off kvs).map Prod.fst = kvs.map Prod.fst := by
  induction kvs generalizing off with
  | nil => rfl
  | cons p r ih =>
    obtain ⟨k, b⟩ := p
    simp [layout, ih]

theorem tiles_layout (off : Nat) (kvs : List (String × Buffer)) :
    tiles off ((layout off kvs).map Prod.snd) (off + (kvs.map Prod.snd).flatten.length)
      = true := by
  induction kvs generalizing off with
  | nil => simp [layout, tiles]
  | cons p r ih =>
    obtain ⟨k, b⟩ := p
    have h := ih (off + b.length)
    simp only [layout, List.map_cons, tiles, List.flatten_cons, List.length_append,
      decide_True, Bool.true_and, Nat.le_add_right, Bool.and_eq_true, decide_eq_true_eq,
      true_and]
    rw [← Nat.add_assoc]
    exact h

theorem get_layout {off : Nat} {kvs : List (String × Buffer)} {k : String} {a b : Nat}
    (h : PlainObj.get (layout off kvs) k = some (a, b)) :
    ∃ pre v post, (kvs.map Prod.snd).flatten = pre ++ v ++ post ∧ a = off + pre.length ∧
      b = a + v.length ∧ (k, v) ∈ kvs := by
  induction kvs generalizing off with
  | nil => simp [layout, PlainObj.get] at h
  | cons p r ih =>
    obtain ⟨k', b'⟩ := p
    by_cases hk : k' = k
    · simp only [layout, PlainObj.get, hk, if_true, Option.some.injEq, Prod.mk.injEq] at h
      refine ⟨[], b', (r.map Prod.snd).flatten, by simp, by simp [h.1], by omega, ?_⟩
      simp [hk]
    · simp only [layout, PlainObj.get, hk, if_false] at h
      obtain ⟨pre, v, post, h1, h2, h3, h4⟩ := ih h
      refine ⟨b' ++ pre, v, post, by simp [h1, List.append_assoc], ?_, h3,
        List.mem_cons_of_mem _ h4⟩
      simp only [List.length_append]
      omega

theorem numIndex_keys (m : PlainObj (Nat × Nat)) :
    (numIndex m).map Prod.fst = m.map Prod.fst := by
  simp [numIndex, List.map_map, Function.comp_def]

theorem get_numIndex (m : PlainObj (Nat × Nat)) (k : String) :
    PlainObj.get (numIndex m) k = (PlainObj.get m k).map (fun r => (some r.1, some r.2)) := by
  induction m with
  | nil => simp [numIndex, PlainObj.get]
  | cons p m ih =>
    obtain ⟨k', r⟩ := p
    by_cases h : k' = k
    · simp [numIndex, PlainObj.get, h]
    · simp only [numIndex, List.map_cons, PlainObj.get, h, if_false] at ih ⊢
      exact ih

/-- The concatenation of a list of buffers is computed, and is their bytes in order. -/
theorem concat_buffers (vals : List Buffer) :
    Buffer.concat (vals.map Value.buffer) = .ok vals.flatten := by
  induction vals with
  | nil => rfl
  | cons b r ih => simp [Buffer.concat, ih]

namespace FileBlobStore

theorem dump_buffer (d : DumpState) (b : Buffer) {key : String} {off : Nat}
    (hk : key ≠ "__proto__") (ho : d.curBufStart = some off) :
    dump d (some (.buffer b)) key = .ok
      { buffers := d.buffers ++ [.buffer b]
        blobMap := PlainObj.set d.blobMap key (some off, some (off + b.length))
        curBufStart := some (off + b.length) } := by
  simp [dump, PlainObj.assign_of_ne _ _ hk, ho, Value.length, addNum]

theorem eachM_dump (P : Platform) (s : FileBlobStore) {ks : List String}
    {vals : List Buffer}
    (h : List.Forall₂ (fun k v => _get P s k = .ok (some (.buffer v))) ks vals) :
    ∀ (d0 : DumpState) (m0 : PlainObj (Nat × Nat)) (off : Nat), d0.blobMap = numIndex m0 →
      d0.curBufStart = some off → ks.Nodup → (∀ k ∈ ks, k ≠ "__proto__") →
      (∀ k ∈ ks, k ∉ m0.map Prod.fst) →
      eachM ks
        (fun a key =>
          match _get P s key with
          | .error e => .error e
          | .ok buf => dump a buf key) d0
        = .ok { buffers := d0.buffers ++ vals.map Value.buffer
                blobMap := numIndex (m0 ++ layout off (ks.zip vals))
                curBufStart := some (off + vals.flatten.length) } := by
  induction h with
  | nil =>
    intro d0 m0 off hm ho _ _ _
    cases d0
    simp only at hm ho
    simp [eachM, layout, hm, ho]
  | @cons k v ks vals hkv _ ih =>
    intro d0 m0 off hm ho hn hnp hfresh
    simp only [List.nodup_cons] at hn
    have hk : k ∉ (numIndex m0).map Prod.fst := by
      rw [numIndex_keys]
      exact hfresh k (List.mem_cons_self _ _)
    have hkp : k ≠ "__proto__" := hnp k (List.mem_cons_self _ _)
    simp only [eachM, hkv, dump_buffer d0 v hkp ho, hm, PlainObj.set_of_not_mem _ hk]
    rw [ih _ (m0 ++ [(k, (off, off + v.length))]) (off + v.length) (by simp [numIndex]) rfl hn.2
      (fun j hj => hnp j (List.mem_cons_of_mem _ hj))]
    · simp [layout, List.append_assoc, Nat.add_assoc, List.zip]
    · intro j hj
      simp only [List.map_append, List.map_cons, List.map_nil, List.mem_append,
        List.mem_singleton, not_or]
      refine ⟨hfresh j (List.mem_cons_of_mem _ hj), ?_⟩
      intro e
      subst e
      exact hn.1 hj

/-- The dump of a store whose merged keys resolve to buffers and are not `__proto__`: the
buffers in order, and the offset map that lays them end to end. -/
theorem getDump_eq (P : Platform) (s : FileBlobStore) {ks : List String}
    {vals : List Buffer} (hks : _getKeys s = .ok ks) (hn : ks.Nodup)
    (hnp : ∀ k ∈ ks, k ≠ "__proto__")
    (h : List.Forall₂ (fun k v => _get P s k = .ok (some (.buffer v))) ks vals) :
    _getDump P s = .ok (vals.map Value.buffer, numIndex (layout 0 (ks.zip vals))) := by
  simp only [_getDump, each, hks]
  rw [eachM_dump P s h _ [] 0 rfl rfl hn hnp (by simp)]
  simp

end FileBlobStore

/-! ## Writes -/

namespace fs

theorem writeFileSync_eq_ok {fsys fs1 : FileSystem} {path : String} {data : Buffer}
    {wx : Bool} (h : writeFileSync fsys path data wx = .ok fs1) : fs1 = store fsys path data := by
  unfold writeFileSync at h
  split at h
  · cases h
  · split at h
    · cases h
    · split at h
      · cases h
      · cases h
        rfl

/-- An exclusive creation that succeeds finds no entry at the path. -/
theorem entries_of_wx_ok {fsys fs1 : FileSystem} {path : String} {data : Buffer}
    (h : writeFileSync fsys path data true = .ok fs1) : fsys.entries path = none := by
  unfold writeFileSync at h
  split at h
  · cases h
  · next hx =>
    simp only [Bool.true_and, Bool.not_eq_true, existsSync] at hx
    cases he : fsys.entries path with
    | none => rfl
    | some x => simp [he] at hx

theorem refusal_ne_EEXIST {fsys : FileSystem} {path code : String}
    (h : refusal fsys path = some code) : code ≠ "EEXIST" := by
  unfold refusal at h
  split at h
  · cases h
  · split at h
    · cases h
    · next hc =>
      cases h
      exact hc

/-- A write that is not an exclusive creation never fails with the code `EEXIST`. -/
theorem writeFileSync_error_code {fsys : FileSystem} {path : String} {data : Buffer}
    {e : JSError} (h : writeFileSync fsys path data false = .error e) :
    e.code ≠ some "EEXIST" := by
  unfold writeFileSync at h
  simp only [Bool.false_and, Bool.false_eq_true, if_false] at h
  split at h
  · next code hr =>
    cases h
    have := refusal_ne_EEXIST hr
    simpa [JSError.code] using this
  · split at h
    · cases h
      simp [JSError.code]
    · cases h

theorem writeFileSync_of_canWrite {fsys : FileSystem} {path : String} (data : Buffer)
    (hw : canWrite fsys path = true) :
    writeFileSync fsys path data false = .ok (store fsys path data) := by
  simp only [canWrite, Bool.and_eq_true, Option.isNone_iff_eq_none, decide_eq_true_eq] at hw
  unfold writeFileSync
  simp only [Bool.false_and, Bool.false_eq_true, if_false, hw.1]
  split
  · next h => exact absurd h hw.2
  · rfl

theorem writeFileSync_wx_of_canWrite {fsys : FileSystem} {path : String} (data : Buffer)
    (hx : existsSync fsys path = false) (hw : canWrite fsys path = true) :
    writeFileSync fsys path data true = .ok (store fsys path data) := by
  simp only [canWrite, Bool.and_eq_true, Option.isNone_iff_eq_none, decide_eq_true_eq] at hw
  unfold writeFileSync
  simp only [hx, Bool.and_false, Bool.false_eq_true, if_false, hw.1]
  split
  · next h => exact absurd h hw.2
  · rfl

theorem store_entries_self (fsys : FileSystem) (path : String) (data : Buffer) :
    (store fsys path data).entries path = some (.file data) := by
  simp [store]

theorem store_entries_of_ne (fsys : FileSystem) {path q : String} (data : Buffer)
    (h : q ≠ path) : (store fsys path data).entries q = fsys.entries q := by
  simp [store, h]

theorem canWrite_store (fsys : FileSystem) {path q : String} (data : Buffer)
    (h : q ≠ path) : canWrite (store fsys path data) q = canWrite fsys q := by
  simp [canWrite, refusal, store, h]

theorem unlinkSync_file {fsys : FileSystem} {path : String} {content : Buffer}
    (h : fsys.entries path = some (.file content)) :
    ∃ fs2, unlinkSync fsys path = .ok fs2 ∧ fs2.entries path = none ∧
      (∀ q, q ≠ path → fs2.entries q = fsys.entries q) ∧ fs2.writeFault = fsys.writeFault := by
  refine ⟨{ fsys with entries := fun p => if p = path then none else fsys.entries p }, ?_, ?_,
    ?_, rfl⟩
  · simp [unlinkSync, h]
  · simp
  · intro q hq
    simp [hq]

end fs

namespace FileBlobStore

/-- When the lock file cannot be created the `try` block ends at once. -/
theorem saveTry_of_lock_error (s : FileBlobStore) (fsys : FileSystem)
    (blobToStore mapToStore : Buffer) {e : JSError}
    (h : fs.writeFileSync fsys s._lockPath lockContent true = .error e) :
    saveTry s fsys blobToStore mapToStore = (fsys, false, some e) := by
  simp [saveTry, h]

/-- Once the lock file is created it is there when the `try` block ends, however the block
ends. -/
theorem saveTry_of_lock_ok (s : FileBlobStore) (fsys : FileSystem)
    (blobToStore mapToStore : Buffer) {fs1 : FileSystem}
    (h : fs.writeFileSync fsys s._lockPath lockContent true = .ok fs1) :
    ∃ fs2 thrown, saveTry s fsys blobToStore mapToStore = (fs2, true, thrown) ∧
      fs2.entries s._lockPath = some (.file lockContent) := by
  have h1 := fs.writeFileSync_eq_ok h
  have hl1 : fs1.entries s._lockPath = some (.file lockContent) := by
    rw [h1]
    exact fs.store_entries_self _ _ _
  simp only [saveTry, h]
  cases h2 : fs.writeFileSync fs1 s._path blobToStore false with
  | error e => exact ⟨fs1, some e, rfl, hl1⟩
  | ok fs2 =>
    have e2 := fs.writeFileSync_eq_ok h2
    have hl2 : fs2.entries s._lockPath = some (.file lockContent) := by
      rw [e2, fs.store_entries_of_ne _ _ (path_ne_lockPath s).symm]
      exact hl1
    cases h3 : fs.writeFileSync fs2 s._mapPath mapToStore false with
    | error e => exact ⟨fs2, some e, by simp [h3], hl2⟩
    | ok fs3 =>
      have e3 := fs.writeFileSync_eq_ok h3
      refine ⟨fs3, none, by simp [h3], ?_⟩
      rw [e3, fs.store_entries_of_ne _ _ (mapPath_ne_lockPath s).symm]
      exact hl2

/-- The `try` block when the lock is free and the three writes succeed. -/
theorem saveTry_of_canWrite (s : FileBlobStore) (fsys : FileSystem)
    (blobToStore mapToStore : Buffer) (hlock : fs.existsSync fsys s._lockPath = false)
    (hwl : fs.canWrite fsys s._lockPath = true) (hwp : fs.canWrite fsys s._path = true)
    (hwm : fs.canWrite fsys s._mapPath = true) :
    saveTry s fsys blobToStore mapToStore =
      (fs.store (fs.store (fs.store fsys s._lockPath lockContent) s._path blobToStore)
        s._mapPath mapToStore, true, none) := by
  have h1 := fs.writeFileSync_wx_of_canWrite lockContent hlock hwl
  have hp : fs.canWrite (fs.store fsys s._lockPath lockContent) s._path = true := by
    rw [fs.canWrite_store _ _ (path_ne_lockPath s)]
    exact hwp
  have h2 := fs.writeFileSync_of_canWrite blobToStore hp
  have hm : fs.canWrite
      (fs.store (fs.store fsys s._lockPath lockContent) s._path blobToStore) s._mapPath
      = true := by
    rw [fs.canWrite_store _ _ (path_ne_mapPath s).symm,
      fs.canWrite_store _ _ (mapPath_ne_lockPath s)]
    exact hwm
  have h3 := fs.writeFileSync_of_canWrite mapToStore hm
  simp only [saveTry, h1, h2, h3]

/-- What `save` leaves when the dump and the concatenation are computed, the lock is free
and the three writes succeed. -/
theorem save_of_dump (P : Platform) (s : FileBlobStore) (fsys : FileSystem)
    {d : List Value × PlainObj (Option Nat × Option Nat)} {blob : Buffer}
    (hd : _getDump P s = .ok d) (hc : Buffer.concat d.1 = .ok blob)
    (hlock : fs.existsSync fsys s._lockPath = false)
    (hwl : fs.canWrite fsys s._lockPath = true) (hwp : fs.canWrite fsys s._path = true)
    (hwm : fs.canWrite fsys s._mapPath = true) :
    (save P s fsys).error = none ∧
      (save P s fsys).fsys.entries s._path = some (.file blob) ∧
      (save P s fsys).fsys.entries s._mapPath
        = some (.file (P.stringify (indexValue d.2))) ∧
      (save P s fsys).fsys.entries s._lockPath = none ∧
      (∀ q, q ≠ s._path → q ≠ s._mapPath → q ≠ s._lockPath →
        (save P s fsys).fsys.entries q = fsys.entries q) := by
  have ht := saveTry_of_canWrite s fsys blob (P.stringify (indexValue d.2))
    hlock hwl hwp hwm
  have hl : (fs.store (fs.store (fs.store fsys s._lockPath lockContent) s._path
      blob) s._mapPath (P.stringify (indexValue d.2))).entries s._lockPath
      = some (.file lockContent) := by
    rw [fs.store_entries_of_ne _ _ (mapPath_ne_lockPath s).symm,
      fs.store_entries_of_ne _ _ (path_ne_lockPath s).symm]
    exact fs.store_entries_self _ _ _
  obtain ⟨fs2, hu, hul, huo, _⟩ := fs.unlinkSync_file hl
  have hs : save P s fsys = { fsys := fs2, error := none } := by
    simp only [save, hd, hc, ht, hu, saveCatch, if_true]
  rw [hs]
  refine ⟨rfl, ?_, ?_, hul, ?_⟩
  · show fs2.entries s._path = _
    rw [huo _ (path_ne_lockPath s), fs.store_entries_of_ne _ _ (path_ne_mapPath s)]
    exact fs.store_entries_self _ _ _
  · show fs2.entries s._mapPath = _
    rw [huo _ (mapPath_ne_lockPath s)]
    exact fs.store_entries_self _ _ _
  · intro q h1 h2 h3
    show fs2.entries q = _
    rw [huo _ h3, fs.store_entries_of_ne _ _ h2, fs.store_entries_of_ne _ _ h1,
      fs.store_entries_of_ne _ _ h3]

end FileBlobStore

/-! ## Reading and changing the store -/

namespace FileBlobStore

/-- The single-key `set` for a key other than `__proto__`, when the read of the old value
does not throw and the overlay is a plain object. -/
theorem set_single_eq (P : Platform) (s : FileBlobStore) {k : String} (b : Buffer)
    (hk : k ≠ "__proto__") (hp : s._dataProto = none) {old : Option Value}
    (h : get P s k = .ok old) :
    set P s (.single k b) =
      { store := { s with _data := PlainObj.set s._data k b }
        events := [{ key := k, buf := b, oldBuf := old }]
        error := none } := by
  cases hd : PlainObj.get s._data k with
  | none => simp [set, hk, setEach, h, assignData, hd, hp]
  | some v => simp [set, hk, setEach, h, assignData, hd]

/-- In a store of the data model `get` does not throw. -/
theorem wf_get_ok (P : Platform) (s : FileBlobStore) (hwf : WellFormed s)
    (hpo : PlainOverlay s) (k : String) :
    ∃ old, get P s k = .ok old := by
  obtain ⟨kvs, hs, _⟩ := isIndex_obj hwf
  cases hd : PlainObj.get s._data k with
  | some b => exact ⟨_, get_overlay P s hd⟩
  | none =>
    cases hi : isInherited k with
    | true => exact ⟨_, get_member P s hd hpo hi⟩
    | false =>
      cases hk : PlainObj.get kvs k with
      | none => exact ⟨none, wf_get_absent P s hpo hs hd hk hi⟩
      | some v =>
        obtain ⟨x, hx, _⟩ := wf_get_some P s hwf hpo hs (k := k) (Or.inr (by simp [hk]))
        exact ⟨some x, hx⟩

/-- What does hold of `set` followed by `get`: in a store of the data model, for every key
other than `__proto__`, `set(k, b)` returns and `get(k)` right after it is `b`. -/
theorem set_then_get (P : Platform) (s : FileBlobStore) (hwf : WellFormed s)
    (hpo : PlainOverlay s) {k : String}
    (hk : k ≠ "__proto__") (b : Buffer) :
    (set P s (.single k b)).error = none ∧
      get P (set P s (.single k b)).store k = .ok (some (.buffer b)) := by
  obtain ⟨old, hold⟩ := wf_get_ok P s hwf hpo k
  rw [set_single_eq P s b hk hpo hold]
  exact ⟨rfl, get_overlay P _ (PlainObj.get_set_self _ _ _)⟩

/-- The single-key `remove` on a stored index that is an object. -/
theorem remove_obj (s : FileBlobStore) {k : String} (hk : k ≠ "")
    {kvs : List (String × JVal)} (hs : s._storedBlobMap = .obj kvs) :
    remove s k =
      { store := { s with _data := PlainObj.delete s._data k
                          _storedBlobMap := .obj (PlainObj.delete kvs k) }
        events := []
        error := none } := by
  simp [remove, toArr, hk, removeEach, hs, JVal.deleteProp]

/-- What does hold of `remove` followed by `get`: in a store of the data model, after
`remove(k)` the key is in neither the overlay nor the stored index, and `get(k)` is
`undefined` unless `k` names a member of `Object.prototype`, which `get(k)` then returns. -/
theorem remove_then_get (P : Platform) (s : FileBlobStore) (hwf : WellFormed s)
    (hpo : PlainOverlay s)
    {k : String} (hk : k ≠ "") :
    (remove s k).error = none ∧
      PlainObj.get (remove s k).store._data k = none ∧
      (∃ kvs, (remove s k).store._storedBlobMap = .obj kvs ∧ PlainObj.get kvs k = none) ∧
      (isInherited k = false → get P (remove s k).store k = .ok none) ∧
      (isInherited k = true → get P (remove s k).store k = .ok (some (.member k))) := by
  obtain ⟨kvs, hs, _⟩ := isIndex_obj hwf
  rw [remove_obj s hk hs]
  have key : ∀ s1 : FileBlobStore, PlainObj.get s1._data k = none → s1._dataProto = none →
      ∀ kvs1, s1._storedBlobMap = .obj kvs1 → PlainObj.get kvs1 k = none →
      (isInherited k = false → get P s1 k = .ok none) ∧
        (isInherited k = true → get P s1 k = .ok (some (.member k))) := by
    intro s1 hd hp kvs1 hm hk1
    refine ⟨?_, fun hi => get_member P s1 hd hp hi⟩
    intro hi
    rw [get, get_storage P s1 hd hp hi]
    exact getFromStorage_none P s1 hm hk1 hi
  exact ⟨rfl, PlainObj.get_delete_self _ _, ⟨_, rfl, PlainObj.get_delete_self _ _⟩,
    key _ (PlainObj.get_delete_self _ _) hpo _ rfl (PlainObj.get_delete_self _ _)⟩

/-- C4, on the code: `set('__proto__', buf)` on a new store throws a `TypeError`, emits no
event and stores nothing, and `get('__proto__')` right after it is not `buf` but the
object `Object.prototype`. -/
theorem set_proto_key_throws :
    WellFormed demoStore ∧ PlainOverlay demoStore ∧
      (set refPlatform demoStore (.single "__proto__" [108, 105])).error = some .typeError ∧
      (set refPlatform demoStore (.single "__proto__" [108, 105])).events = [] ∧
      (set refPlatform demoStore (.single "__proto__" [108, 105])).store._data = [] ∧
      (set refPlatform demoStore (.single "__proto__" [108, 105])).store._dataProto = none ∧
      get refPlatform (set refPlatform demoStore (.single "__proto__" [108, 105])).store
        "__proto__" = .ok (some (.member "__proto__")) :=
  ⟨by decide, by decide, rfl, rfl, rfl, rfl, rfl⟩

/-- C5, on the code: after `remove('toString')` on the store holding `name`, the key
`toString` is in neither the overlay nor the stored index, and `get('toString')` is not
`undefined` but the function `Object.prototype.toString`. -/
theorem get_after_remove_inherited :
    WellFormed nameStore ∧ PlainOverlay nameStore ∧
      (remove nameStore "toString").error = none ∧
      PlainObj.get (remove nameStore "toString").store._data "toString" = none ∧
      (remove nameStore "toString").store._storedBlobMap = .obj [] ∧
      get refPlatform (remove nameStore "toString").store "toString"
        = .ok (some (.member "toString")) :=
  ⟨by decide, by decide, rfl, rfl, rfl, rfl⟩

/-- The resolution rule as the code has it, for a store with a plain overlay: the buffer of
the overlay when the key is an own property of it; otherwise, when the key names a member
of `Object.prototype`, that member, whatever the stored index holds; otherwise the slice
the stored index gives, or `undefined`. -/
theorem resolution_rule (P : Platform) (s : FileBlobStore) (hp : PlainOverlay s)
    (k : String) :
    (∀ b, PlainObj.get s._data k = some b → get P s k = .ok (some (.buffer b))) ∧
      (PlainObj.get s._data k = none →
        (isInherited k = true → get P s k = .ok (some (.member k))) ∧
        (isInherited k = false → ∀ kvs, s._storedBlobMap = .obj kvs →
          (∀ a b : Int, PlainObj.get kvs k = some (.arr [.num a, .num b]) →
            get P s k = .ok (some (.buffer (Buffer.slice P s._storedBlob (.num a) (.num b))))) ∧
          (∀ a b : Nat, PlainObj.get kvs k = some (.arr [.num a, .num b]) → a ≤ b →
            b ≤ s._storedBlob.length →
            get P s k = .ok (some (.buffer ((s._storedBlob.drop a).take (b - a))))) ∧
          (PlainObj.get kvs k = none → get P s k = .ok none))) := by
  refine ⟨fun b hb => get_overlay P s hb, ?_⟩
  intro hd
  refine ⟨fun hi => get_member P s hd hp hi, ?_⟩
  intro hi kvs hs
  refine ⟨?_, ?_, ?_⟩
  · intro a b hk
    rw [get, get_storage P s hd hp hi, getFromStorage_pair P s hs hk]
  · intro a b hk hab hb
    rw [get, get_storage P s hd hp hi, getFromStorage_pair P s hs hk, slice_of_le P _ hab hb]
  · intro hk
    rw [get, get_storage P s hd hp hi, getFromStorage_none P s hs hk hi]

/-- C6, on the code: on a new store, whose overlay and stored index are empty,
`get('constructor')` is not `undefined` but the function `Object`; on the store reopened
from the files of `set('toString', [1])` and `save()`, whose stored index maps `toString`
to `[0, 1]`, `get('toString')` is not the byte of the stored blob but the function
`Object.prototype.toString`. -/
theorem get_returns_inherited_member :
    PlainObj.get demoStore._data "constructor" = none ∧
      demoStore._storedBlobMap = .obj [] ∧
      get refPlatform demoStore "constructor" = .ok (some (.member "constructor")) ∧
      PlainObj.get toStringStore._data "toString" = none ∧
      toStringStore._storedBlob = [1] ∧
      toStringStore._storedBlobMap = .obj [("toString", .arr [.num 0, .num 1])] ∧
      get refPlatform toStringStore "toString" = .ok (some (.member "toString")) :=
  ⟨rfl, rfl, rfl, rfl, rfl, rfl, rfl⟩

/-! ## Saving -/

/-- C7, on the code: the store reopened from the files of `set('toString', [1])` and
`save()` is one of the data model; with the lock file in place its `save()` does not
return: the dump holds the function `Object.prototype.toString` for the key `toString`,
`Buffer.concat` throws a `TypeError` on it, and `save()` throws it. -/
theorem save_when_locked_throws :
    WellFormed toStringStore ∧ PlainOverlay toStringStore ∧
      fs.existsSync toStringLockedFS toStringStore._lockPath = true ∧
      _getDump refPlatform toStringStore
        = .ok ([.member "toString"], [("toString", (some 0, some 0))]) ∧
      Buffer.concat [.member "toString"] = .error .typeError ∧
      (save refPlatform toStringStore toStringLockedFS).error = some .typeError :=
  ⟨by decide, by decide, by decide, rfl, rfl, rfl⟩

/-- What `save` leaves once the lock file is created: the lock file is removed, and the
exception that left the `try` block, unless its code is `EEXIST`, is thrown. -/
theorem save_of_lock_ok (P : Platform) (s : FileBlobStore) (fsys : FileSystem)
    {d : List Value × PlainObj (Option Nat × Option Nat)} {blob : Buffer}
    (hd : _getDump P s = .ok d) (hc : Buffer.concat d.1 = .ok blob)
    {fs1 : FileSystem} (hl : fs.writeFileSync fsys s._lockPath lockContent true = .ok fs1) :
    ∃ fs2 thrown,
      saveTry s fsys blob (P.stringify (indexValue d.2)) = (fs2, true, thrown) ∧
      (save P s fsys).error = saveCatch thrown ∧
      (save P s fsys).fsys.entries s._lockPath = none := by
  obtain ⟨fs2, thrown, ht, hentry⟩ :=
    saveTry_of_lock_ok s fsys blob (P.stringify (indexValue d.2)) hl
  obtain ⟨fs3, hu, hul, _, _⟩ := fs.unlinkSync_file hentry
  have hs : save P s fsys = { fsys := fs3, error := saveCatch thrown } := by
    simp only [save, hd, hc, ht, hu, if_true]
  rw [hs]
  exact ⟨fs2, thrown, ht, rfl, hul⟩

/-- C9: once `save()` has created the lock file, the lock file does not exist when
`save()` returns or throws, whether both writes succeed, the write of the blob throws or
the write of the index throws. -/
theorem save_releases_lock (P : Platform) (s : FileBlobStore) (fsys : FileSystem)
    (d : List Value × PlainObj (Option Nat × Option Nat)) (hd : _getDump P s = .ok d)
    (fs1 : FileSystem) (hl : fs.writeFileSync fsys s._lockPath lockContent true = .ok fs1) :
    (save P s fsys).fsys.entries s._lockPath = none ∧
      fs.existsSync (save P s fsys).fsys s._lockPath = false := by
  have h : (save P s fsys).fsys.entries s._lockPath = none := by
    cases hc : Buffer.concat d.1 with
    | error e =>
      have hs : save P s fsys = { fsys := fsys, error := some e } := by
        simp only [save, hd, hc]
      rw [hs]
      exact fs.entries_of_wx_ok hl
    | ok blob =>
      obtain ⟨_, _, _, _, h⟩ := save_of_lock_ok P s fsys hd hc hl
      exact h
  exact ⟨h, by simp [fs.existsSync, h]⟩

/-- The statement above on a run in which the lock file is created and the write of the
blob throws `ENOSPC`. -/
theorem save_releases_lock_witness :
    (_getDump refPlatform nameStore
        = .ok ([.buffer liciaBytes], [("name", (some 0, some 5))]) ∧
      fs.writeFileSync (refusingFS "data" "ENOSPC") nameStore._lockPath lockContent true
        = .ok (fs.store (refusingFS "data" "ENOSPC") nameStore._lockPath lockContent)) ∧
      ((save refPlatform nameStore (refusingFS "data" "ENOSPC")).fsys.entries nameStore._lockPath
          = none ∧
        fs.existsSync (save refPlatform nameStore (refusingFS "data" "ENOSPC")).fsys
          nameStore._lockPath = false) :=
  ⟨⟨rfl, rfl⟩, save_releases_lock refPlatform nameStore (refusingFS "data" "ENOSPC") _ rfl _ rfl⟩

/-- C8: errors of `save()` propagate. When the dump and the concatenation are computed: if
creating the lock file throws an error whose code is not `EEXIST`, `save()` throws it; and
if the lock file was created and the write of the blob or of the index throws an error,
whatever its code, `save()` throws that error and the lock file has been removed. -/
theorem save_propagates (P : Platform) (s : FileBlobStore) (fsys : FileSystem)
    (d : List Value × PlainObj (Option Nat × Option Nat)) (hd : _getDump P s = .ok d)
    (blob : Buffer) (hc : Buffer.concat d.1 = .ok blob) (e : JSError) :
    (fs.writeFileSync fsys s._lockPath lockContent true = .error e →
        e.code ≠ some "EEXIST" → (save P s fsys).error = some e) ∧
      (∀ fs1, fs.writeFileSync fsys s._lockPath lockContent true = .ok fs1 →
        (fs.writeFileSync fs1 s._path blob false = .error e →
          (save P s fsys).error = some e ∧ (save P s fsys).fsys.entries s._lockPath = none) ∧
        (∀ fs2, fs.writeFileSync fs1 s._path blob false = .ok fs2 →
          fs.writeFileSync fs2 s._mapPath (P.stringify (indexValue d.2)) false = .error e →
          (save P s fsys).error = some e ∧
            (save P s fsys).fsys.entries s._lockPath = none)) := by
  refine ⟨?_, ?_⟩
  · intro hl he
    simp [save, hd, hc, saveTry_of_lock_error s fsys _ _ hl, saveCatch, he]
  · intro fs1 hl
    obtain ⟨fs2, thrown, ht, herr, hgone⟩ := save_of_lock_ok P s fsys hd hc hl
    refine ⟨?_, ?_⟩
    · intro hb
      have hcode : saveCatch (some e) = some e := by
        simp [saveCatch, fs.writeFileSync_error_code hb]
      have ht2 : saveTry s fsys blob (P.stringify (indexValue d.2))
          = (fs1, true, some e) := by
        simp [saveTry, hl, hb]
      rw [ht2] at ht
      cases ht
      exact ⟨by rw [herr, hcode], hgone⟩
    · intro fs3 hb hm
      have hcode : saveCatch (some e) = some e := by
        simp [saveCatch, fs.writeFileSync_error_code hm]
      have ht2 : saveTry s fsys blob (P.stringify (indexValue d.2))
          = (fs3, true, some e) := by
        simp [saveTry, hl, hb, hm]
      rw [ht2] at ht
      cases ht
      exact ⟨by rw [herr, hcode], hgone⟩

/-- The statement above on two runs of the store holding `name`: the lock file is created
and the write of the blob throws `ENOSPC`, which `save()` throws with the lock file gone;
and creating the lock file throws `EACCES`, which `save()` throws. -/
theorem save_propagates_witness :
    (_getDump refPlatform nameStore
        = .ok ([.buffer liciaBytes], [("name", (some 0, some 5))]) ∧
      Buffer.concat [.buffer liciaBytes] = .ok liciaBytes ∧
      fs.writeFileSync (refusingFS "data" "ENOSPC") nameStore._lockPath lockContent true
        = .ok (fs.store (refusingFS "data" "ENOSPC") nameStore._lockPath lockContent) ∧
      fs.writeFileSync (fs.store (refusingFS "data" "ENOSPC") nameStore._lockPath lockContent)
        nameStore._path liciaBytes false = .error (.fsError "ENOSPC") ∧
      fs.writeFileSync (refusingFS "data.LOCK" "EACCES") nameStore._lockPath lockContent true
        = .error (.fsError "EACCES")) ∧
      ((save refPlatform nameStore (refusingFS "data" "ENOSPC")).error
          = some (.fsError "ENOSPC") ∧
        (save refPlatform nameStore (refusingFS "data" "ENOSPC")).fsys.entries
          nameStore._lockPath = none) ∧
      (save refPlatform nameStore (refusingFS "data.LOCK" "EACCES")).error
        = some (.fsError "EACCES") :=
  ⟨⟨rfl, rfl, rfl, rfl, rfl⟩,
    ((save_propagates refPlatform nameStore (refusingFS "data" "ENOSPC") _ rfl _ rfl
      (.fsError "ENOSPC")).2 _ rfl).1 rfl,
    (save_propagates refPlatform nameStore (refusingFS "data.LOCK" "EACCES") _ rfl _ rfl
      (.fsError "EACCES")).1 rfl (by decide)⟩

end FileBlobStore

/-! ## Loading -/

namespace FileBlobStore

/-- C10: the paired load of the constructor. The stored state after construction is
either the empty blob with the empty index, or exactly the bytes of `path` with the
parsed JSON of `path + '.MAP'`; it is empty whenever `path` is missing, the index file is
missing, reading either throws, or the index file is not parsable JSON. -/
theorem create_paired_load (P : Platform) (fsys : FileSystem) (path : String)
    (data : Option (PlainObj Buffer)) :
    (((create P fsys path data)._storedBlob = [] ∧
        (create P fsys path data)._storedBlobMap = .obj []) ∨
      (∃ blob text m, fsys.entries path = some (.file blob) ∧
        fsys.entries (path ++ ".MAP") = some (.file text) ∧ P.parse text = some m ∧
        (create P fsys path data)._storedBlob = blob ∧
        (create P fsys path data)._storedBlobMap = m)) ∧
      ((fs.existsSync fsys path = false ∨ fs.existsSync fsys (path ++ ".MAP") = false ∨
          (∃ e, fs.readFileSync fsys path = .error e) ∨
          (∃ e, fs.readFileSync fsys (path ++ ".MAP") = .error e) ∨
          (∃ text, fs.readFileSync fsys (path ++ ".MAP") = .ok text ∧ P.parse text = none)) →
        (create P fsys path data)._storedBlob = [] ∧
          (create P fsys path data)._storedBlobMap = .obj []) := by
  refine ⟨?_, ?_⟩
  · cases h1 : fsys.entries path with
    | none => exact Or.inl (by simp [create, fs.existsSync, h1])
    | some e1 =>
      cases e1 with
      | dir => exact Or.inl (by simp [create, fs.existsSync, fs.readFileSync, h1])
      | file blob =>
        cases h2 : fsys.entries (path ++ ".MAP") with
        | none => exact Or.inl (by simp [create, fs.existsSync, h1, h2])
        | some e2 =>
          cases e2 with
          | dir => exact Or.inl (by simp [create, fs.existsSync, fs.readFileSync, h1, h2])
          | file text =>
            cases h3 : P.parse text with
            | none =>
              exact Or.inl (by simp [create, fs.existsSync, fs.readFileSync, h1, h2, h3])
            | some m =>
              exact Or.inr ⟨blob, text, m, rfl, rfl, h3,
                by simp [create, fs.existsSync, fs.readFileSync, h1, h2, h3]⟩
  · rintro (h | h | ⟨e, h⟩ | ⟨e, h⟩ | ⟨text, h, hp⟩)
    · simp [create, h]
    · simp [create, h]
    · simp [create, h]
    · cases h1 : fs.readFileSync fsys path with
      | error e1 => simp [create, h1]
      | ok blob => simp [create, h1, h]
    · cases h1 : fs.readFileSync fsys path with
      | error e1 => simp [create, h1]
      | ok blob => simp [create, h1, h, hp]

/-- The statement above on a readable blob file next to an index file that is not JSON. -/
theorem create_paired_load_witness :
    (∃ text, fs.readFileSync corruptFS ("data" ++ ".MAP") = .ok text ∧
        refPlatform.parse text = none) ∧
      fs.readFileSync corruptFS "data" = .ok [1, 2, 3] ∧
      (create refPlatform corruptFS "data" none)._storedBlob = [] ∧
      (create refPlatform corruptFS "data" none)._storedBlobMap = .obj [] :=
  ⟨⟨[123, 110, 111], rfl, rfl⟩, rfl,
    (create_paired_load refPlatform corruptFS "data" none).2
      (Or.inr (Or.inr (Or.inr (Or.inr ⟨[123, 110, 111], rfl, rfl⟩))))⟩

end FileBlobStore

/-! ## The snapshot -/

theorem indexValue_numIndex (m : PlainObj (Nat × Nat)) :
    indexValue (numIndex m)
      = .obj (m.map (fun p => (p.1, JVal.arr [.num p.2.1, .num p.2.2]))) := by
  simp [indexValue, numIndex, List.map_map, Function.comp_def, offsetValue]

theorem get_indexEntries (m : PlainObj (Nat × Nat)) (k : String) :
    PlainObj.get (m.map (fun p => (p.1, JVal.arr [.num p.2.1, .num p.2.2]))) k
      = (PlainObj.get m k).map (fun r => JVal.arr [.num r.1, .num r.2]) := by
  induction m with
  | nil => simp [PlainObj.get]
  | cons p m ih =>
    obtain ⟨k', r⟩ := p
    by_cases h : k' = k
    · simp [PlainObj.get, h]
    · simp [PlainObj.get, h, ih]

namespace FileBlobStore

/-- The dump of a store of the data model none of whose keys names a member of
`Object.prototype`: the blobs of the merged keys in order, and an index that gives each
merged key, and no other, the range its blob takes in their concatenation. -/
theorem plain_snapshot (P : Platform) (s : FileBlobStore) (hwf : WellFormed s)
    (hpo : PlainOverlay s)
    (hp : plainKeys s = true) :
    ∃ (ks : List String) (vals : List Buffer) (idx : PlainObj (Nat × Nat)),
      _getKeys s = .ok ks ∧ ks.Nodup ∧
      List.Forall₂ (fun k v => get P s k = .ok (some (.buffer v))) ks vals ∧
      (∀ k, k ∉ ks → isInherited k = false → get P s k = .ok none) ∧
      _getDump P s = .ok (vals.map Value.buffer, numIndex idx) ∧
      idx = layout 0 (ks.zip vals) ∧
      idx.map Prod.fst = ks ∧
      tiles 0 (idx.map Prod.snd) vals.flatten.length = true ∧
      (∀ k a b, PlainObj.get idx k = some (a, b) →
        ∃ pre v post, vals.flatten = pre ++ v ++ post ∧ a = pre.length ∧
          b = pre.length + v.length ∧ get P s k = .ok (some (.buffer v))) := by
  obtain ⟨ks, vals, hks, hn, hni, hv, hnone⟩ := plain_resolved P s hwf hpo hp
  have hlen := hv.length_eq
  have hfst : (ks.zip vals).map Prod.fst = ks := List.map_fst_zip _ _ (le_of_eq hlen)
  have hsnd : (ks.zip vals).map Prod.snd = vals := List.map_snd_zip _ _ (le_of_eq hlen.symm)
  have hnp : ∀ k ∈ ks, k ≠ "__proto__" := fun k hk => ne_proto_of_not_inherited (hni k hk)
  refine ⟨ks, vals, layout 0 (ks.zip vals), hks, hn, hv, hnone,
    getDump_eq P s hks hn hnp hv, rfl, ?_, ?_, ?_⟩
  · rw [layout_keys, hfst]
  · have h := tiles_layout 0 (ks.zip vals)
    rw [hsnd, Nat.zero_add] at h
    exact h
  · intro k a b hk
    obtain ⟨pre, v, post, h1, h2, h3, h4⟩ := get_layout hk
    rw [hsnd] at h1
    refine ⟨pre, v, post, h1, by omega, by omega, ?_⟩
    exact List.forall₂_zip hv h4

/-- C2, on the code: the store constructed with an object that has the own property
`__proto__` saves without an error; the dump has the buffer and an empty index, because
the assignment `blobMap['__proto__'] = [0, 1]` creates no property; the blob written has
one byte and the index written is the text of the empty object, whose ranges, none, do not
reach the length of the blob. -/
theorem save_index_misses_proto_key :
    WellFormed protoDataStore ∧ PlainOverlay protoDataStore ∧
      _getDump refPlatform protoDataStore = .ok ([.buffer [1]], []) ∧
      (save refPlatform protoDataStore emptyFS).error = none ∧
      (save refPlatform protoDataStore emptyFS).fsys.entries "data" = some (.file [1]) ∧
      (save refPlatform protoDataStore emptyFS).fsys.entries "data.MAP"
        = some (.file (Ref.asciiText "\x7b\x7d")) ∧
      tiles 0 [] ([1] : Buffer).length = false :=
  ⟨by decide, by decide, rfl, rfl, rfl, rfl, rfl⟩

theorem wf_remove (s : FileBlobStore) (hwf : WellFormed s) (r : String) :
    WellFormed (remove s r).store := by
  by_cases hr : r = ""
  · subst hr
    exact hwf
  obtain ⟨kvs, hs, _⟩ := isIndex_obj hwf
  rw [remove_obj s hr hs]
  unfold WellFormed at hwf ⊢
  rw [hs] at hwf
  simp only [JVal.isIndex, List.all_eq_true] at hwf ⊢
  intro p hp
  exact hwf p (List.mem_of_mem_filter hp)

/-- C3, on the code: the merged key set of the store constructed with an object that has
the own property `__proto__` is that key, and `get('__proto__')` is the buffer; `save()`
acquires the lock and writes the blob of one byte, and the index it writes, the text of
the empty object, has no entry for the key. -/
theorem save_snapshot_misses_proto_key :
    _getKeys protoDataStore = .ok ["__proto__"] ∧
      get refPlatform protoDataStore "__proto__" = .ok (some (.buffer [1])) ∧
      fs.existsSync emptyFS protoDataStore._lockPath = false ∧
      (save refPlatform protoDataStore emptyFS).error = none ∧
      (save refPlatform protoDataStore emptyFS).fsys.entries "data" = some (.file [1]) ∧
      (save refPlatform protoDataStore emptyFS).fsys.entries "data.MAP"
        = some (.file (refPlatform.stringify (indexValue []))) ∧
      PlainObj.get ([] : PlainObj (Option Nat × Option Nat)) "__proto__" = none :=
  ⟨rfl, rfl, rfl, rfl, rfl, rfl, rfl⟩

/-- The constructor when both files are read and the index is parsed. -/
theorem create_of_files (P : Platform) (fsys : FileSystem) (path : String)
    (data : Option (PlainObj Buffer)) {blob text : Buffer} {m : JVal}
    (h1 : fsys.entries path = some (.file blob))
    (h2 : fsys.entries (path ++ ".MAP") = some (.file text)) (h3 : P.parse text = some m) :
    create P fsys path data =
      { _path := path, _data := data.getD [], _dataProto := none, _storedBlob := blob,
        _storedBlobMap := m } := by
  simp [create, fs.existsSync, fs.readFileSync, h1, h2, h3]

/-- C1, on the code: after `set('constructor', Buffer.from('x'))` and `save()`, which
writes the byte and the index with `constructor` at `[0, 1]`, the store constructed from
the same path does not return the byte for `constructor`, a key of the merged key set, but
the function `Object`; and for `toString`, a key outside the merged key set, it returns
not `undefined` but the function `Object.prototype.toString`. -/
theorem round_trip_loses_inherited_key :
    WellFormed constructorStore ∧ PlainOverlay constructorStore ∧
      _getKeys constructorStore = .ok ["constructor"] ∧
      get refPlatform constructorStore "constructor" = .ok (some (.buffer [120])) ∧
      fs.existsSync emptyFS constructorStore._lockPath = false ∧
      (save refPlatform constructorStore emptyFS).error = none ∧
      constructorFS.entries "data" = some (.file [120]) ∧
      constructorFS.entries "data.MAP"
        = some (.file (Ref.asciiText "\x7b\"constructor\":[0,1]\x7d")) ∧
      constructorReopened._storedBlobMap = .obj [("constructor", .arr [.num 0, .num 1])] ∧
      get refPlatform constructorReopened "constructor"
        = .ok (some (.member "constructor")) ∧
      get refPlatform constructorReopened "toString" = .ok (some (.member "toString")) :=
  ⟨by decide, by decide, rfl, rfl, rfl, rfl, rfl, rfl, rfl, rfl, rfl⟩

end FileBlobStore

/-! ## Corrupt index files -/

namespace FileBlobStore

/-- C11, on the code: an index file that is valid JSON but not an object of ranges is kept
as the stored index, and later calls throw. With the text `null`, `get('a')` and
`remove('a')` throw a `TypeError`; with an object that has `a` at `5`, `get('a')` throws a
`TypeError`. -/
theorem corrupt_index_is_surfaced :
    (create refPlatform nullIndexFS "data" none)._storedBlobMap = .null ∧
      get refPlatform (create refPlatform nullIndexFS "data" none) "a" = .error .typeError ∧
      (remove (create refPlatform nullIndexFS "data" none) "a").error = some .typeError ∧
      (create refPlatform numberIndexFS "data" none)._storedBlobMap = .obj [("a", .num 5)] ∧
      get refPlatform (create refPlatform numberIndexFS "data" none) "a"
        = .error .typeError :=
  ⟨rfl, rfl, rfl, rfl, rfl⟩

/-! ## Clearing and setting -/

theorem getKeys_clear (s : FileBlobStore) : _getKeys (clear s) = .ok [] := by
  simp [_getKeys, clear, JVal.ownKeys, PlainObj.keys, PlainObj.ownEntries, keys, concat, unique]

/-- What does hold of `clear`: it leaves an empty overlay with `Object.prototype` for its
prototype, an empty stored blob and an empty stored index; the merged key set is then
empty, `each(fn)` calls `fn` not once, and `get(k)` is `undefined` for every key that
names no member of `Object.prototype`, and that member for a key that names one. -/
theorem clear_then_get (P : Platform) (s : FileBlobStore) :
    (clear s)._data = [] ∧ (clear s)._dataProto = none ∧ (clear s)._storedBlob = [] ∧
      (clear s)._storedBlobMap = .obj [] ∧ _getKeys (clear s) = .ok [] ∧
      (∀ (σ : Type) (fn : σ → Option Value → String → Except JSError σ) (acc : σ),
        each P (clear s) fn acc = .ok acc) ∧
      (∀ k, isInherited k = false → get P (clear s) k = .ok none) ∧
      (∀ k, isInherited k = true → get P (clear s) k = .ok (some (.member k))) := by
  refine ⟨rfl, rfl, rfl, rfl, getKeys_clear s, ?_, ?_, ?_⟩
  · intro σ fn acc
    simp [each, getKeys_clear, eachM]
  · intro k hi
    have hd : PlainObj.get (clear s)._data k = none := rfl
    rw [get, get_storage P (clear s) hd rfl hi]
    exact getFromStorage_none P (clear s) rfl rfl hi
  · intro k hi
    exact get_member P (clear s) rfl rfl hi

/-- C16, on the code: after `clear()` on the store holding `name` the overlay, the stored
blob and the stored index are empty, and `get('constructor')` is not `undefined` but the
function `Object`. -/
theorem get_after_clear_inherited :
    (clear nameStore)._data = [] ∧ (clear nameStore)._storedBlob = [] ∧
      (clear nameStore)._storedBlobMap = .obj [] ∧
      _getKeys (clear nameStore) = .ok [] ∧
      get refPlatform (clear nameStore) "constructor" = .ok (some (.member "constructor")) :=
  ⟨rfl, rfl, rfl, rfl, rfl⟩

/-- What does hold of the single-key `set`: in a store of the data model, for every key
other than `__proto__`, `set(k, b)` emits exactly one change event `(k, b, old)`, where
`old` is what `get(k)` gave before the call, and afterwards the overlay maps `k` to `b`,
every other key of the overlay has the entry it had, and the stored blob and the stored
index are unchanged. -/
theorem set_single_change (P : Platform) (s : FileBlobStore) (hwf : WellFormed s)
    (hpo : PlainOverlay s)
    {k : String} (hk : k ≠ "__proto__") (b : Buffer) :
    ∃ old, get P s k = .ok old ∧
      (set P s (.single k b)).events = [{ key := k, buf := b, oldBuf := old }] ∧
      (set P s (.single k b)).error = none ∧
      PlainObj.get (set P s (.single k b)).store._data k = some b ∧
      (∀ j, j ≠ k →
        PlainObj.get (set P s (.single k b)).store._data j = PlainObj.get s._data j) ∧
      (set P s (.single k b)).store._storedBlob = s._storedBlob ∧
      (set P s (.single k b)).store._storedBlobMap = s._storedBlobMap ∧
      (set P s (.single k b)).store._path = s._path := by
  obtain ⟨old, hold⟩ := wf_get_ok P s hwf hpo k
  refine ⟨old, hold, ?_⟩
  rw [set_single_eq P s b hk hpo hold]
  refine ⟨rfl, rfl, PlainObj.get_set_self _ _ _, ?_, rfl, rfl, rfl⟩
  intro j hj
  exact PlainObj.get_set_of_ne _ _ (fun e => hj e.symm)

/-- C18, on the code: `set('__proto__', buf)` on a new store emits no change event, throws
a `TypeError` and leaves the overlay without the key; and `set('constructor', buf)` emits
one event whose old value is neither a blob nor absent: it is the function `Object`, while
the key is in neither the overlay nor the stored index. -/
theorem set_proto_key_emits_nothing :
    (set refPlatform demoStore (.single "__proto__" [108, 105])).events = [] ∧
      (set refPlatform demoStore (.single "__proto__" [108, 105])).error = some .typeError ∧
      PlainObj.get (set refPlatform demoStore (.single "__proto__" [108, 105])).store._data
        "__proto__" = none ∧
      PlainObj.get demoStore._data "constructor" = none ∧
      demoStore._storedBlobMap = .obj [] ∧
      (set refPlatform demoStore (.single "constructor" [1])).events
        = [{ key := "constructor", buf := [1], oldBuf := some (.member "constructor") }] :=
  ⟨rfl, rfl, rfl, rfl, rfl, rfl⟩

/-- C17, on the code: for the mapping with the own property `__proto__`, the bulk `set`
on a new store returns, emits one change event and makes the buffer the prototype of the
overlay, while the single-key call for that key throws a `TypeError`, emits no event and
leaves the overlay as it was. -/
theorem set_bulk_differs_on_proto_key :
    (set refPlatform demoStore (.bulk [("__proto__", [1])])).error = none ∧
      (set refPlatform demoStore (.bulk [("__proto__", [1])])).events
        = [{ key := "__proto__", buf := [1], oldBuf := some (.member "__proto__") }] ∧
      (set refPlatform demoStore (.bulk [("__proto__", [1])])).store._dataProto = some [1] ∧
      (setRepeated refPlatform demoStore [("__proto__", [1])]).error = some .typeError ∧
      (setRepeated refPlatform demoStore [("__proto__", [1])]).events = [] ∧
      (setRepeated refPlatform demoStore [("__proto__", [1])]).store._dataProto = none :=
  ⟨rfl, rfl, rfl, rfl, rfl, rfl⟩

end FileBlobStore

/-! ## Enumeration and offsets -/

/-- Two neighbours in a list of keyed blobs laid end to end: the second starts where the
first ends. -/
theorem layout_neighbours {R : String → Buffer → Prop} {k1 k2 : String} {post : List String} :
    ∀ (pre : List String) (vals : List Buffer) (off : Nat),
      List.Forall₂ R (pre ++ k1 :: k2 :: post) vals → (pre ++ k1 :: k2 :: post).Nodup →
      ∃ a v1 v2, R k1 v1 ∧ R k2 v2 ∧
        PlainObj.get (layout off ((pre ++ k1 :: k2 :: post).zip vals)) k1
          = some (a, a + v1.length) ∧
        PlainObj.get (layout off ((pre ++ k1 :: k2 :: post).zip vals)) k2
          = some (a + v1.length, a + v1.length + v2.length) := by
  intro pre
  induction pre with
  | nil =>
    intro vals off h hn
    cases h with
    | cons h1 hrest =>
      cases hrest with
      | cons h2 _ =>
        have hne : k1 ≠ k2 := by
          intro e
          subst e
          simp at hn
        exact ⟨off, _, _, h1, h2, by simp [layout, PlainObj.get],
          by simp [layout, PlainObj.get, hne]⟩
  | cons p pre ih =>
    intro vals off h hn
    cases h with
    | @cons _ v _ vals2 _ hrest =>
      have hn2 : (pre ++ k1 :: k2 :: post).Nodup := (List.nodup_cons.mp hn).2
      have hp : p ∉ pre ++ k1 :: k2 :: post := (List.nodup_cons.mp hn).1
      have hp1 : p ≠ k1 := by
        intro e
        subst e
        exact hp (by simp)
      have hp2 : p ≠ k2 := by
        intro e
        subst e
        exact hp (by simp)
      obtain ⟨a, v1, v2, r1, r2, g1, g2⟩ := ih vals2 (off + v.length) hrest hn2
      exact ⟨a, v1, v2, r1, r2, by simpa [layout, PlainObj.get, hp1] using g1,
        by simpa [layout, PlainObj.get, hp2] using g2⟩

namespace FileBlobStore

/-- C13, as stated, fails: after `set('a', [])` and `set('b', [1])` the merged keys are
`a`, `b`, the index `save()` builds gives both the start offset 0, and 0 is not less
than 0. -/
theorem equal_starts_of_empty_blob :
    _getKeys emptyBlobStore = .ok ["a", "b"] ∧
      _getDump refPlatform emptyBlobStore
        = .ok ([.buffer [], .buffer [1]],
            [("a", (some 0, some 0)), ("b", (some 0, some 1))]) ∧
      PlainObj.get [("a", (some 0, some 0)), ("b", ((some 0 : Option Nat), (some 1 : Option Nat)))]
        "a" = some (some 0, some 0) ∧
      PlainObj.get [("a", (some 0, some 0)), ("b", ((some 0 : Option Nat), (some 1 : Option Nat)))]
        "b" = some (some 0, some 1) ∧
      ((0 : Nat) < 0) = False :=
  ⟨rfl, rfl, rfl, rfl, by simp⟩

/-- C13, amended: in the index `save()` builds for a store of the data model, with a plain
overlay, none of whose keys names a member of `Object.prototype`, the start offsets never
decrease in enumeration order: for two consecutive merged keys the later key starts where
the blob of the earlier one ends, so its start is at least the start of the earlier key,
and strictly greater when the blob of the earlier key is not empty. -/
theorem starts_increase (P : Platform) (s : FileBlobStore) (hwf : WellFormed s)
    (hpo : PlainOverlay s)
    (hp : plainKeys s = true) (pre post : List String) (k1 k2 : String)
    (hks : _getKeys s = .ok (pre ++ k1 :: k2 :: post)) :
    ∃ vals idx a1 b1 a2 b2 v1, _getDump P s = .ok (vals, idx) ∧
      PlainObj.get idx k1 = some (some a1, some b1) ∧
      PlainObj.get idx k2 = some (some a2, some b2) ∧
      get P s k1 = .ok (some (.buffer v1)) ∧ a2 = a1 + v1.length ∧ a1 ≤ a2 ∧
      (v1 ≠ [] → a1 < a2) := by
  obtain ⟨ks, vals, hks2, hn, hni, hv, _⟩ := plain_resolved P s hwf hpo hp
  rw [hks] at hks2
  cases hks2
  have hnp : ∀ k ∈ pre ++ k1 :: k2 :: post, k ≠ "__proto__" :=
    fun k hk => ne_proto_of_not_inherited (hni k hk)
  obtain ⟨a, v1, v2, r1, _, g1, g2⟩ := layout_neighbours pre vals 0 hv hn
  refine ⟨_, _, a, a + v1.length, a + v1.length, a + v1.length + v2.length, v1,
    getDump_eq P s hks hn hnp hv, ?_, ?_, r1, rfl, Nat.le_add_right _ _, ?_⟩
  · rw [get_numIndex, g1]
    rfl
  · rw [get_numIndex, g2]
    rfl
  · intro hne
    have : 0 < v1.length := List.length_pos.mpr hne
    omega

/-- The statement above on the store with blobs for `a` and `b`, where the blob of `a` is
empty. -/
theorem starts_increase_witness :
    (WellFormed emptyBlobStore ∧ PlainOverlay emptyBlobStore ∧
      plainKeys emptyBlobStore = true ∧
      _getKeys emptyBlobStore = .ok ([] ++ "a" :: "b" :: [])) ∧
      ∃ vals idx a1 b1 a2 b2 v1, _getDump refPlatform emptyBlobStore = .ok (vals, idx) ∧
        PlainObj.get idx "a" = some (some a1, some b1) ∧
        PlainObj.get idx "b" = some (some a2, some b2) ∧
        get refPlatform emptyBlobStore "a" = .ok (some (.buffer v1)) ∧ a2 = a1 + v1.length ∧
        a1 ≤ a2 ∧ (v1 ≠ [] → a1 < a2) :=
  ⟨⟨by decide, by decide, by decide, rfl⟩,
    starts_increase refPlatform emptyBlobStore (by decide) (by decide) (by decide) [] []
      "a" "b" rfl⟩

theorem eachM_calls (P : Platform) (s : FileBlobStore) {σ : Type}
    (fn : σ → Option Value → String → Except JSError σ) {ks : List String}
    {vals : List Value}
    (h : List.Forall₂ (fun k v => _get P s k = .ok (some v)) ks vals) :
    ∀ acc : σ,
      eachM ks
        (fun a key =>
          match _get P s key with
          | .error e => .error e
          | .ok buf => fn a buf key) acc
        = eachM (ks.zip vals) (fun a c => fn a (some c.2) c.1) acc := by
  induction h with
  | nil =>
    intro acc
    rfl
  | @cons k v ks vals hkv _ ih =>
    intro acc
    simp only [eachM, hkv, List.zip_cons_cons]
    cases fn acc (some v) k with
    | error e => rfl
    | ok acc2 => exact ih acc2

/-- C12: for every store of the data model, with a plain overlay, `each(fn)` calls `fn` on
a list of keys with their values, one call after the other until a call throws: the list
has every key that is in the overlay or in the stored index and no other key, it has no key
twice, also not a key that is in both, and the value passed with a key `k` is what `get(k)`
returns. -/
theorem each_visits_once (P : Platform) (s : FileBlobStore) (hwf : WellFormed s)
    (hpo : PlainOverlay s) :
    ∃ (kvs : List (String × JVal)) (calls : List (String × Value)),
      s._storedBlobMap = .obj kvs ∧
      (calls.map Prod.fst).Nodup ∧
      (∀ k, k ∈ calls.map Prod.fst ↔
        (PlainObj.get s._data k ≠ none ∨ PlainObj.get kvs k ≠ none)) ∧
      (∀ k v, (k, v) ∈ calls → get P s k = .ok (some v)) ∧
      ∀ (σ : Type) (fn : σ → Option Value → String → Except JSError σ) (acc : σ),
        each P s fn acc = eachM calls (fun a c => fn a (some c.2) c.1) acc := by
  obtain ⟨kvs, ks, vals, hs, hks, hn, hmem, hv⟩ := wf_resolved P s hwf hpo
  have hfst : (ks.zip vals).map Prod.fst = ks :=
    List.map_fst_zip _ _ (le_of_eq hv.length_eq)
  refine ⟨kvs, ks.zip vals, hs, by rw [hfst]; exact hn, ?_, ?_, ?_⟩
  · intro k
    rw [hfst]
    exact hmem k
  · intro k v hkv
    exact List.forall₂_zip hv hkv
  · intro σ fn acc
    simp only [each, hks]
    exact eachM_calls P s fn hv acc

/-- The statement above on the reopened store, whose overlay has `extra` and whose stored
index has `name`. -/
theorem each_visits_once_witness :
    (WellFormed reopenedStore ∧ PlainOverlay reopenedStore) ∧
      ∃ (kvs : List (String × JVal)) (calls : List (String × Value)),
        reopenedStore._storedBlobMap = .obj kvs ∧
        (calls.map Prod.fst).Nodup ∧
        (∀ k, k ∈ calls.map Prod.fst ↔
          (PlainObj.get reopenedStore._data k ≠ none ∨ PlainObj.get kvs k ≠ none)) ∧
        (∀ k v, (k, v) ∈ calls → get refPlatform reopenedStore k = .ok (some v)) ∧
        ∀ (σ : Type) (fn : σ → Option Value → String → Except JSError σ) (acc : σ),
          each refPlatform reopenedStore fn acc
            = eachM calls (fun a c => fn a (some c.2) c.1) acc :=
  ⟨⟨by decide, by decide⟩,
    each_visits_once refPlatform reopenedStore (by decide) (by decide)⟩

end FileBlobStore

/-! ## Removing again -/

theorem PlainObj.delete_of_get_none {α : Type} {o : PlainObj α} {k : String}
    (h : PlainObj.get o k = none) : PlainObj.delete o k = o := by
  rw [PlainObj.get_eq_none_iff] at h
  unfold PlainObj.delete
  rw [List.filter_eq_self]
  intro p hp
  have : p.1 ≠ k := by
    intro e
    exact h (List.mem_map.mpr ⟨p, hp, e⟩)
  simp [this]

theorem PlainObj.delete_delete {α : Type} (o : PlainObj α) (k : String) :
    PlainObj.delete (PlainObj.delete o k) k = PlainObj.delete o k :=
  PlainObj.delete_of_get_none (PlainObj.get_delete_self o k)

namespace FileBlobStore

theorem removeEach_cons_obj (s : FileBlobStore) (k : String) (rest : List String)
    {kvs : List (String × JVal)} (hs : s._storedBlobMap = .obj kvs) :
    removeEach (k :: rest) s =
      removeEach rest { s with _data := PlainObj.delete s._data k
                               _storedBlobMap := .obj (PlainObj.delete kvs k) } := by
  simp [removeEach, hs, JVal.deleteProp]

theorem removeAll_eq_foldl (keys : List String) (hk : ∀ k ∈ keys, k ≠ "") :
    ∀ s : FileBlobStore, WellFormed s →
      (removeAll s keys).store = keys.foldl (fun st k => (remove st k).store) s ∧
        (removeAll s keys).error = none := by
  induction keys with
  | nil =>
    intro s _
    exact ⟨rfl, rfl⟩
  | cons k rest ih =>
    intro s hwf
    obtain ⟨kvs, hs, _⟩ := isIndex_obj hwf
    have hk0 : k ≠ "" := hk k (List.mem_cons_self _ _)
    have hstep : (remove s k).store =
        { s with _data := PlainObj.delete s._data k
                 _storedBlobMap := .obj (PlainObj.delete kvs k) } := by
      rw [remove_obj s hk0 hs]
    have hwf2 := wf_remove s hwf k
    rw [hstep] at hwf2
    have h := ih (fun j hj => hk j (List.mem_cons_of_mem _ hj)) _ hwf2
    simp only [removeAll] at h ⊢
    rw [removeEach_cons_obj s k rest hs, List.foldl_cons, hstep]
    exact h

/-- C14: `remove` on a store of the data model. For a key that is neither in the overlay
nor in the stored index, `remove(k)` throws nothing and leaves the overlay, the stored
index and the stored blob as they were; for every key, `remove(k)` followed by `remove(k)`
leaves the store that one `remove(k)` leaves; and `remove(keys)` on a list of keys
(non-empty strings) leaves the store that removing each listed key in turn leaves. -/
theorem remove_idempotent (s : FileBlobStore) (hwf : WellFormed s) :
    (∀ k kvs, s._storedBlobMap = .obj kvs → PlainObj.get s._data k = none →
        PlainObj.get kvs k = none →
        (remove s k).store = s ∧ (remove s k).error = none) ∧
      (∀ k, (remove (remove s k).store k).store = (remove s k).store ∧
        (remove s k).error = none ∧ (remove (remove s k).store k).error = none) ∧
      (∀ keys, (∀ k ∈ keys, k ≠ "") →
        (removeAll s keys).store = keys.foldl (fun st k => (remove st k).store) s ∧
          (removeAll s keys).error = none) := by
  obtain ⟨kvs, hs, _⟩ := isIndex_obj hwf
  refine ⟨?_, ?_, fun keys hk => removeAll_eq_foldl keys hk s hwf⟩
  · intro k kvs2 hs2 hd hi
    by_cases hk : k = ""
    · subst hk
      exact ⟨rfl, rfl⟩
    · rw [remove_obj s hk hs2, PlainObj.delete_of_get_none hd,
        PlainObj.delete_of_get_none hi]
      refine ⟨?_, rfl⟩
      cases s
      simp only at hs2
      simp [hs2]
  · intro k
    by_cases hk : k = ""
    · subst hk
      exact ⟨rfl, rfl, rfl⟩
    · rw [remove_obj s hk hs]
      refine ⟨?_, rfl, ?_⟩
      · rw [remove_obj _ hk rfl]
        simp [PlainObj.delete_delete]
      · rw [remove_obj _ hk rfl]

/-- The statement above on the reopened store: the absent key `other`, the stored key
`name` removed twice, and the list of `extra` and `name`. -/
theorem remove_idempotent_witness :
    (WellFormed reopenedStore ∧
      reopenedStore._storedBlobMap = .obj [("name", .arr [.num 0, .num 5])] ∧
      PlainObj.get reopenedStore._data "other" = none ∧
      PlainObj.get [("name", JVal.arr [.num 0, .num 5])] "other" = none) ∧
    ((remove reopenedStore "other").store = reopenedStore ∧
      (remove reopenedStore "other").error = none) ∧
    ((remove (remove reopenedStore "name").store "name").store
        = (remove reopenedStore "name").store ∧
      (remove reopenedStore "name").error = none ∧
      (remove (remove reopenedStore "name").store "name").error = none) ∧
    ((removeAll reopenedStore ["extra", "name"]).store
        = ["extra", "name"].foldl (fun st k => (remove st k).store) reopenedStore ∧
      (removeAll reopenedStore ["extra", "name"]).error = none) :=
  ⟨⟨by decide, rfl, by decide, rfl⟩,
    (remove_idempotent reopenedStore (by decide)).1 "other" _ rfl (by decide) rfl,
    (remove_idempotent reopenedStore (by decide)).2.1 "name",
    (remove_idempotent reopenedStore (by decide)).2.2 ["extra", "name"] (by decide)⟩

end FileBlobStore

/-! ## What a call leaves alone

The methods as steps on the whole state agree with the methods as functions of the store;
what a method leaves untouched is read off the step. -/

namespace World

/-- The constructor as a step builds the instance the constructor builds, and leaves the
file system as it is. -/
theorem create_eq (P : Platform) (fsys : FileSystem) (path : String)
    (data : Option (PlainObj Buffer)) :
    (create P fsys path data).store = FileBlobStore.create P fsys path data ∧
      (create P fsys path data).fsys = fsys ∧ (create P fsys path data).emitted = [] := by
  cases h1 : fs.existsSync fsys path with
  | false => simp [create, FileBlobStore.create, h1]
  | true =>
    cases h2 : fs.existsSync fsys (path ++ ".MAP") with
    | false => simp [create, FileBlobStore.create, h1, h2]
    | true =>
      cases h3 : fs.readFileSync fsys path with
      | error e => simp [create, FileBlobStore.create, h1, h2, h3]
      | ok blob =>
        cases h4 : fs.readFileSync fsys (path ++ ".MAP") with
        | error e => simp [create, FileBlobStore.create, h1, h2, h3, h4]
        | ok text =>
          cases h5 : P.parse text with
          | none => simp [create, FileBlobStore.create, h1, h2, h3, h4, h5]
          | some m => simp [create, FileBlobStore.create, h1, h2, h3, h4, h5]

/-- A loop whose iterator leaves the state as it is leaves the state as it is, and computes
what the loop over the results computes. -/
theorem forEach_pure {σ β : Type} (xs : List β) (iterator : World → σ → β → Ran σ)
    (it : σ → β → Except JSError σ) (w : World)
    (h : ∀ a x, iterator w a x = { world := w, result := it a x }) :
    ∀ acc, forEach xs iterator w acc = { world := w, result := eachM xs it acc } := by
  induction xs with
  | nil =>
    intro acc
    rfl
  | cons x rest ih =>
    intro acc
    simp only [forEach, eachM, h]
    cases it acc x with
    | error e => rfl
    | ok a => exact ih a

/-- The step `_getFromStorage` leaves the state as it is. -/
theorem getFromStorage_eq (P : Platform) (w : World) (key : String) :
    _getFromStorage P w key
      = { world := w, result := FileBlobStore._getFromStorage P w.store key } := by
  simp only [_getFromStorage, FileBlobStore._getFromStorage]
  cases JVal.getProp P w.store._storedBlobMap key with
  | error e => rfl
  | ok slot =>
    cases slot with
    | inherited => rfl
    | value v =>
      cases ht : v.truthy with
      | false => simp [ht]
      | true =>
        simp only [ht, Bool.not_true, Bool.false_eq_true, if_false]
        cases JVal.destructurePair v with
        | error e => rfl
        | ok p => rfl

/-- The step `_get` leaves the state as it is. -/
theorem get_eq (P : Platform) (w : World) (key : String) :
    _get P w key = { world := w, result := FileBlobStore._get P w.store key } := by
  simp only [_get, FileBlobStore._get]
  cases FileBlobStore.readData P w.store key with
  | error e => rfl
  | ok r =>
    cases r with
    | none => exact getFromStorage_eq P w key
    | some v =>
      cases ht : v.truthy with
      | true => simp [ht]
      | false =>
        simp only [ht, Bool.false_eq_true, if_false]
        exact getFromStorage_eq P w key

/-- The step `_getKeys` leaves the state as it is. -/
theorem getKeys_eq (w : World) :
    _getKeys w = { world := w, result := FileBlobStore._getKeys w.store } := by
  simp only [_getKeys, FileBlobStore._getKeys]
  cases JVal.ownKeys w.store._storedBlobMap with
  | error e => rfl
  | ok ks => rfl

/-- The step `get(keys)` leaves the state as it is. -/
theorem getAll_eq (P : Platform) (w : World) (keys : List String) :
    getAll P w keys = { world := w, result := FileBlobStore.getAll P w.store keys } := by
  unfold getAll FileBlobStore.getAll
  apply forEach_pure
  intro ret val
  rw [get_eq]
  cases FileBlobStore._get P w.store val with
  | error e => rfl
  | ok v => rfl

/-- The step `each` leaves the state as it is. -/
theorem each_eq {σ : Type} (P : Platform) (w : World)
    (fn : σ → Option Value → String → Except JSError σ) (acc : σ) :
    each P w fn acc = { world := w, result := FileBlobStore.each P w.store fn acc } := by
  simp only [each, FileBlobStore.each, getKeys_eq]
  cases FileBlobStore._getKeys w.store with
  | error e => rfl
  | ok allKeys =>
    simp only []
    apply forEach_pure
    intro a key
    rw [get_eq]
    cases FileBlobStore._get P w.store key with
    | error e => rfl
    | ok buf => rfl

/-- The step `_getDump` leaves the state as it is. -/
theorem getDump_pure (P : Platform) (w : World) :
    _getDump P w = { world := w, result := FileBlobStore._getDump P w.store } := by
  simp only [_getDump, FileBlobStore._getDump, each_eq]
  cases FileBlobStore.each P w.store FileBlobStore.dump
      { buffers := [], blobMap := [], curBufStart := some 0 } with
  | error e => rfl
  | ok d => rfl

/-- The loop of `set` as a step: it changes the store and the events as the loop on the
store does, and nothing else. -/
theorem setLoop_eq (P : Platform) (l : List (String × Buffer)) :
    ∀ (w : World) (before evs : List ChangeEvent), w.emitted = before ++ evs →
      forEach l (setOne P) w () =
        { world :=
            { store := (FileBlobStore.setEach P l w.store evs).store
              fsys := w.fsys
              calls := w.calls
              emitted := before ++ (FileBlobStore.setEach P l w.store evs).events }
          result := asResult (FileBlobStore.setEach P l w.store evs).error } := by
  induction l with
  | nil =>
    intro w before evs he
    cases w
    simp only at he
    simp [forEach, FileBlobStore.setEach, asResult, he]
  | cons p rest ih =>
    intro w before evs he
    obtain ⟨key, buf⟩ := p
    simp only [forEach, setOne, get, get_eq, FileBlobStore.setEach, FileBlobStore.get]
    cases hg : FileBlobStore._get P w.store key with
    | error e =>
      cases w
      simp only at he
      simp [asResult, he]
    | ok oldBuf =>
      simp only []
      cases ha : FileBlobStore.assignData P w.store key buf with
      | error e =>
        cases w
        simp only at he
        simp [asResult, he]
      | ok s1 =>
        simp only []
        rw [ih _ before (evs ++ [{ key := key, buf := buf, oldBuf := oldBuf }])
          (by simp [he, List.append_assoc])]

/-- The step `set` changes the instance and the events as `set` on the instance does, and
nothing else. -/
theorem set_eq (P : Platform) (w : World) (arg : SetArg) :
    set P w arg =
      { world :=
          { store := (FileBlobStore.set P w.store arg).store
            fsys := w.fsys
            calls := w.calls
            emitted := w.emitted ++ (FileBlobStore.set P w.store arg).events }
        result := asResult (FileBlobStore.set P w.store arg).error } := by
  cases arg with
  | single key buf =>
    by_cases hk : key = "__proto__"
    · simp [set, FileBlobStore.set, hk, asResult]
    · simp only [set, FileBlobStore.set, hk, if_false]
      rw [setLoop_eq P _ w w.emitted [] (by simp)]
  | bulk values =>
    simp only [set, FileBlobStore.set]
    rw [setLoop_eq P _ w w.emitted [] (by simp)]

/-- The loop of `remove` as a step. -/
theorem removeLoop_eq (l : List String) :
    ∀ w : World,
      forEach l removeOne w () =
        { world := { w with store := (FileBlobStore.removeEach l w.store).store }
          result := asResult (FileBlobStore.removeEach l w.store).error } := by
  induction l with
  | nil =>
    intro w
    rfl
  | cons val rest ih =>
    intro w
    simp only [forEach, removeOne, FileBlobStore.removeEach]
    cases JVal.deleteProp w.store._storedBlobMap val with
    | error e => rfl
    | ok m =>
      simp only []
      rw [ih]

theorem caught_eq (thrown : Option JSError) :
    caught thrown = asResult (FileBlobStore.saveCatch thrown) := by
  unfold caught asResult
  cases FileBlobStore.saveCatch thrown <;> rfl

/-- The step `save` leaves the instance and the events as they are, and leaves the file
system and the result that `save` on the instance and the file system leaves. -/
theorem save_eq (P : Platform) (w : World) :
    (save P w).world.store = w.store ∧
      (save P w).world.emitted = w.emitted ∧
      (save P w).world.fsys = (FileBlobStore.save P w.store w.fsys).fsys ∧
      (save P w).result = asResult (FileBlobStore.save P w.store w.fsys).error := by
  cases hd : FileBlobStore._getDump P w.store with
  | error e => simp [save, getDump_pure, FileBlobStore.save, hd, asResult]
  | ok d =>
    cases hc : Buffer.concat d.1 with
    | error e => simp [save, getDump_pure, FileBlobStore.save, hd, hc, asResult]
    | ok blob =>
      cases h1 : fs.writeFileSync w.fsys w.store._lockPath lockContent true with
      | error e =>
        simp [save, getDump_pure, FileBlobStore.save, hd, hc, writeFileSync,
          FileBlobStore.saveTry, h1, caught_eq]
      | ok fs1 =>
        cases h2 : fs.writeFileSync fs1 w.store._path blob false with
        | error e =>
          cases hu : fs.unlinkSync fs1 w.store._lockPath with
          | error e2 =>
            simp [save, getDump_pure, FileBlobStore.save, hd, hc, writeFileSync, unlinkSync,
              FileBlobStore.saveTry, h1, h2, hu, asResult]
          | ok fs2 =>
            simp [save, getDump_pure, FileBlobStore.save, hd, hc, writeFileSync, unlinkSync,
              FileBlobStore.saveTry, h1, h2, hu, caught_eq]
        | ok fs2 =>
          cases h3 : fs.writeFileSync fs2 w.store._mapPath (P.stringify (indexValue d.2))
              false with
          | error e =>
            cases hu : fs.unlinkSync fs2 w.store._lockPath with
            | error e2 =>
              simp [save, getDump_pure, FileBlobStore.save, hd, hc, writeFileSync, unlinkSync,
                FileBlobStore.saveTry, h1, h2, h3, hu, asResult]
            | ok fs3 =>
              simp [save, getDump_pure, FileBlobStore.save, hd, hc, writeFileSync, unlinkSync,
                FileBlobStore.saveTry, h1, h2, h3, hu, caught_eq]
          | ok fs3 =>
            cases hu : fs.unlinkSync fs3 w.store._lockPath with
            | error e2 =>
              simp [save, getDump_pure, FileBlobStore.save, hd, hc, writeFileSync, unlinkSync,
                FileBlobStore.saveTry, h1, h2, h3, hu, asResult]
            | ok fs4 =>
              simp [save, getDump_pure, FileBlobStore.save, hd, hc, writeFileSync, unlinkSync,
                FileBlobStore.saveTry, h1, h2, h3, hu, caught_eq]

end World

/-- C15: `set`, `get`, `remove`, `clear` and `each` perform no disk I/O. For every state of
the instance and of the file system, a call of one of them, in either of its forms and
whether it returns or throws, leaves the file system as it was, so what `path`,
`path + '.MAP'` and `path + '.LOCK'` name is unchanged, and it makes no call to `fs`, not
even one that reads. `save()` is the method that does: on the example store it makes four
calls to `fs` and the blob file exists afterwards. -/
theorem only_save_touches_disk (P : Platform) (w : World) :
    (∀ arg, (World.set P w arg).world.fsys = w.fsys ∧
        (World.set P w arg).world.calls = w.calls) ∧
      (∀ key, (World.get P w key).world.fsys = w.fsys ∧
        (World.get P w key).world.calls = w.calls) ∧
      (∀ keys, (World.getAll P w keys).world.fsys = w.fsys ∧
        (World.getAll P w keys).world.calls = w.calls) ∧
      (∀ key, (World.remove w key).world.fsys = w.fsys ∧
        (World.remove w key).world.calls = w.calls) ∧
      (∀ keys, (World.removeAll w keys).world.fsys = w.fsys ∧
        (World.removeAll w keys).world.calls = w.calls) ∧
      ((World.clear w).world.fsys = w.fsys ∧ (World.clear w).world.calls = w.calls) ∧
      (∀ (σ : Type) (fn : σ → Option Value → String → Except JSError σ) (acc : σ),
        (World.each P w fn acc).world.fsys = w.fsys ∧
          (World.each P w fn acc).world.calls = w.calls) ∧
      (nameWorld.fsys.entries "data" = none ∧
        (World.save refPlatform nameWorld).world.fsys.entries "data"
          = some (.file liciaBytes) ∧
        (World.save refPlatform nameWorld).world.calls
          = [.writeFileSync "data.LOCK" lockContent true,
              .writeFileSync "data" liciaBytes false,
              .writeFileSync "data.MAP" (Ref.asciiText "\x7b\"name\":[0,5]\x7d") false,
              .unlinkSync "data.LOCK"]) := by
  refine ⟨?_, ?_, ?_, ?_, ?_, ⟨rfl, rfl⟩, ?_, ⟨rfl, rfl, rfl⟩⟩
  · intro arg
    rw [World.set_eq]
    exact ⟨rfl, rfl⟩
  · intro key
    rw [World.get, World.get_eq]
    exact ⟨rfl, rfl⟩
  · intro keys
    rw [World.getAll_eq]
    exact ⟨rfl, rfl⟩
  · intro key
    rw [World.remove, World.removeLoop_eq]
    exact ⟨rfl, rfl⟩
  · intro keys
    rw [World.removeAll, World.removeLoop_eq]
    exact ⟨rfl, rfl⟩
  · intro σ fn acc
    rw [World.each_eq]
    exact ⟨rfl, rfl⟩

/-- C19: `save()` does not change the instance. For every state of the instance and of the
file system, whether `save()` writes, gives up on an existing lock file or throws, the
store is afterwards what it was: its overlay, its stored blob and its stored index are the
same, no event was emitted, and `get(k)` returns afterwards what it returned before, for
every key. -/
theorem save_keeps_store (P : Platform) (w : World) :
    (World.save P w).world.store = w.store ∧
      (World.save P w).world.store._data = w.store._data ∧
      (World.save P w).world.store._dataProto = w.store._dataProto ∧
      (World.save P w).world.store._storedBlob = w.store._storedBlob ∧
      (World.save P w).world.store._storedBlobMap = w.store._storedBlobMap ∧
      (World.save P w).world.emitted = w.emitted ∧
      ∀ k, (World.get P (World.save P w).world k).result = (World.get P w k).result := by
  obtain ⟨h1, h2, _, _⟩ := World.save_eq P w
  refine ⟨h1, by rw [h1], by rw [h1], by rw [h1], by rw [h1], h2, ?_⟩
  intro k
  simp only [World.get, World.get_eq, h1]

/-! ## Saving what was loaded -/

theorem unique_of_nodup {l : List String} (h : l.Nodup) : unique l = l := by
  induction l with
  | nil => rfl
  | cons x l ih =>
    simp only [List.nodup_cons] at h
    simp [unique, h.1, ih h.2]

theorem PlainObj.ownEntries_map {α β : Type} (g : α → β) (o : PlainObj α) :
    PlainObj.ownEntries (o.map (fun p => (p.1, g p.2)))
      = (PlainObj.ownEntries o).map (fun p => (p.1, g p.2)) := by
  unfold PlainObj.ownEntries
  rw [List.filter_map, List.filter_map, List.map_append]
  congr 1
  exact (List.map_insertionSort (fun (p q : String × α) => indexLE p.1 q.1)
    (fun (p q : String × β) => indexLE p.1 q.1)
    (fun p : String × α => (p.1, g p.2)) _ (fun _ _ _ _ => Iff.rfl)).symm

theorem PlainObj.keys_map {α β : Type} (g : α → β) (o : PlainObj α) :
    PlainObj.keys (o.map (fun p => (p.1, g p.2))) = PlainObj.keys o := by
  unfold PlainObj.keys
  rw [PlainObj.ownEntries_map, List.map_map]
  rfl

namespace fs

theorem unlinkSync_writeFault {fsys fs2 : FileSystem} {path : String}
    (h : unlinkSync fsys path = .ok fs2) : fs2.writeFault = fsys.writeFault := by
  unfold unlinkSync at h
  split at h
  · cases h
  · cases h
  · cases h
    rfl

end fs

namespace FileBlobStore

theorem saveTry_writeFault (s : FileBlobStore) (fsys : FileSystem) (blob text : Buffer) :
    (saveTry s fsys blob text).1.writeFault = fsys.writeFault := by
  cases h1 : fs.writeFileSync fsys s._lockPath lockContent true with
  | error e => simp [saveTry, h1]
  | ok fs1 =>
    have w1 : fs1.writeFault = fsys.writeFault := by
      rw [fs.writeFileSync_eq_ok h1]
      rfl
    cases h2 : fs.writeFileSync fs1 s._path blob false with
    | error e => simp [saveTry, h1, h2, w1]
    | ok fs2 =>
      have w2 : fs2.writeFault = fs1.writeFault := by
        rw [fs.writeFileSync_eq_ok h2]
        rfl
      cases h3 : fs.writeFileSync fs2 s._mapPath text false with
      | error e => simp [saveTry, h1, h2, h3, w2, w1]
      | ok fs3 =>
        have w3 : fs3.writeFault = fs2.writeFault := by
          rw [fs.writeFileSync_eq_ok h3]
          rfl
        simp [saveTry, h1, h2, h3, w3, w2, w1]

/-- The method `save` never changes which writes the system refuses. -/
theorem save_writeFault (P : Platform) (s : FileBlobStore) (fsys : FileSystem) :
    (save P s fsys).fsys.writeFault = fsys.writeFault := by
  cases hd : _getDump P s with
  | error e => simp [save, hd]
  | ok d =>
    cases hc : Buffer.concat d.1 with
    | error e => simp [save, hd, hc]
    | ok blob =>
      have ht := saveTry_writeFault s fsys blob (P.stringify (indexValue d.2))
      rcases hst : saveTry s fsys blob (P.stringify (indexValue d.2)) with
        ⟨fs1, lock, thrown⟩
      rw [hst] at ht
      simp only at ht
      cases lock with
      | false => simp [save, hd, hc, hst, ht]
      | true =>
        cases hu : fs.unlinkSync fs1 s._lockPath with
        | error e => simp [save, hd, hc, hst, hu, ht]
        | ok fs2 => simp [save, hd, hc, hst, hu, fs.unlinkSync_writeFault hu, ht]

/-- What a store with an empty plain overlay, built on the blob and index of a snapshot,
resolves for the keys of the snapshot, none of which names a member of
`Object.prototype`: the blobs they had. -/
theorem get_of_index (P : Platform) (A B : FileBlobStore) {ks : List String}
    {vals : List Buffer} {idx : PlainObj (Nat × Nat)} (hfst : idx.map Prod.fst = ks)
    (hni : ∀ k ∈ ks, isInherited k = false)
    (hslice : ∀ k a b, PlainObj.get idx k = some (a, b) →
      ∃ pre v post, vals.flatten = pre ++ v ++ post ∧ a = pre.length ∧
        b = pre.length + v.length ∧ get P A k = .ok (some (.buffer v)))
    (hBd : B._data = []) (hBp : B._dataProto = none) (hBb : B._storedBlob = vals.flatten)
    (hBm : B._storedBlobMap
      = .obj (idx.map (fun p => (p.1, JVal.arr [.num p.2.1, .num p.2.2])))) :
    ∀ k, k ∈ ks → get P B k = get P A k := by
  intro k hk
  have hdata : PlainObj.get B._data k = none := by rw [hBd]; rfl
  have hsome : PlainObj.get idx k ≠ none := by
    rw [Ne, PlainObj.get_eq_none_iff, not_not, hfst]
    exact hk
  obtain ⟨⟨a, b⟩, hab⟩ := Option.ne_none_iff_exists'.mp hsome
  obtain ⟨pre, v, post, h1, h2, h3, h4⟩ := hslice k a b hab
  have hentry : PlainObj.get (idx.map (fun p => (p.1, JVal.arr [.num p.2.1, .num p.2.2]))) k
      = some (.arr [.num (a : Int), .num (b : Int)]) := by
    rw [get_indexEntries, hab]
    rfl
  rw [h4, get, get_storage P B hdata hBp (hni k hk), getFromStorage_pair P B hBm hentry, hBb,
    h1, h2, h3, slice_append]

theorem canWrite_after_save (P : Platform) (s : FileBlobStore) (fsys : FileSystem)
    {path : String} (hw : fs.canWrite fsys path = true)
    (he : (save P s fsys).fsys.entries path ≠ some .dir) :
    fs.canWrite (save P s fsys).fsys path = true := by
  simp only [fs.canWrite, fs.refusal, Bool.and_eq_true, decide_eq_true_eq] at hw ⊢
  rw [save_writeFault]
  exact ⟨hw.1, he⟩

/-- C20, as stated, fails: a store with the key `b` in its overlay and the key `1` in its
stored index saves the blob `[2, 1]` with the index text that puts `1` at `[1, 2]` and `b`
at `[0, 1]`; the store loaded from these files, with an empty overlay, saves the blob
`[1, 2]` and an index text that puts `1` at `[0, 1]` and `b` at `[1, 2]`. -/
theorem load_then_save_reorders :
    (save refPlatform mixedStore oneFS).error = none ∧
      mixedFS.entries "data" = some (.file [2, 1]) ∧
      mixedFS.entries "data.MAP"
        = some (.file (Ref.asciiText "\x7b\"1\":[1,2],\"b\":[0,1]\x7d")) ∧
      mixedReopened._data = [] ∧
      (save refPlatform mixedReopened mixedFS).error = none ∧
      (save refPlatform mixedReopened mixedFS).fsys.entries "data" = some (.file [1, 2]) ∧
      (save refPlatform mixedReopened mixedFS).fsys.entries "data.MAP"
        = some (.file (Ref.asciiText "\x7b\"1\":[0,1],\"b\":[1,2]\x7d")) :=
  ⟨by decide, by decide, by decide, by decide, by decide, by decide, by decide⟩

/-- C20, amended: a saved snapshot is a fixed point of load-then-save when the store that
saved it enumerates its merged keys in the order in which the runtime enumerates the keys
of an object (array-index keys first, in ascending order), and none of its keys names a
member of `Object.prototype`. If such a store `A` of the data model, with a plain overlay,
saves with the lock free and the writes succeeding, and the runtime reads back the index it
writes, then the store `B` constructed from the same path, with an empty overlay, saves
without an error and writes the bytes `A` wrote, to the blob file and to the index file. -/
theorem load_then_save_fixed (P : Platform) (A : FileBlobStore) (fsys : FileSystem)
    (hwf : WellFormed A) (hpo : PlainOverlay A) (hpk : plainKeys A = true)
    (hlock : fs.existsSync fsys A._lockPath = false)
    (hwl : fs.canWrite fsys A._lockPath = true) (hwp : fs.canWrite fsys A._path = true)
    (hwm : fs.canWrite fsys A._mapPath = true)
    (hrt : ∀ d, _getDump P A = .ok d → P.RoundTrips d.2)
    (hord : ∀ d, _getDump P A = .ok d → PlainObj.ownEntries d.2 = d.2) :
    (save P A fsys).error = none ∧
      (create P (save P A fsys).fsys A._path none)._data = [] ∧
      (save P (create P (save P A fsys).fsys A._path none) (save P A fsys).fsys).error
        = none ∧
      ∃ blob text,
        (save P A fsys).fsys.entries A._path = some (.file blob) ∧
        (save P A fsys).fsys.entries A._mapPath = some (.file text) ∧
        (save P (create P (save P A fsys).fsys A._path none)
          (save P A fsys).fsys).fsys.entries A._path = some (.file blob) ∧
        (save P (create P (save P A fsys).fsys A._path none)
          (save P A fsys).fsys).fsys.entries A._mapPath = some (.file text) := by
  obtain ⟨ks, vals, idx, hks, hn, hv, _, hd, hidx, hfst, _, hslice⟩ :=
    plain_snapshot P A hwf hpo hpk
  have hni := plainKeys_spec hpk hks
  have hnp : ∀ k ∈ ks, k ≠ "__proto__" := fun k hk => ne_proto_of_not_inherited (hni k hk)
  obtain ⟨herr, hp, hm, hl, _⟩ :=
    save_of_dump P A fsys hd (concat_buffers vals) hlock hwl hwp hwm
  have ho : PlainObj.ownEntries (numIndex idx) = numIndex idx := hord _ hd
  have hparse : P.parse (P.stringify (indexValue (numIndex idx)))
      = some (indexValue (numIndex idx)) := by
    have h := hrt _ hd
    unfold Platform.RoundTrips at h
    simp only at h
    rw [ho] at h
    exact h
  have hB : create P (save P A fsys).fsys A._path none =
      { _path := A._path, _data := [], _dataProto := none, _storedBlob := vals.flatten,
        _storedBlobMap := indexValue (numIndex idx) } :=
    create_of_files P (save P A fsys).fsys A._path none hp hm hparse
  generalize hBdef : create P (save P A fsys).fsys A._path none = B at hB ⊢
  have hBpath : B._path = A._path := by rw [hB]
  have hBlock : B._lockPath = A._lockPath := by rw [hB]; rfl
  have hBmap : B._mapPath = A._mapPath := by rw [hB]; rfl
  have hBd : B._data = [] := by rw [hB]
  have hBm : B._storedBlobMap
      = .obj (idx.map (fun p => (p.1, JVal.arr [.num p.2.1, .num p.2.2]))) := by
    rw [hB]
    exact indexValue_numIndex idx
  have hgetB := get_of_index P A B hfst hni hslice hBd (by rw [hB]) (by rw [hB]) hBm
  have hvB : List.Forall₂ (fun k v => _get P B k = .ok (some (.buffer v))) ks vals := by
    rw [List.forall₂_iff_zip]
    refine ⟨hv.length_eq, ?_⟩
    intro a b hab
    have h1 : get P A a = .ok (some (.buffer b)) := List.forall₂_zip hv hab
    have h2 := hgetB a (List.of_mem_zip hab).1
    rw [h1] at h2
    exact h2
  have hksB : _getKeys B = .ok ks := by
    have hkm : PlainObj.keys (idx.map (fun p => (p.1, JVal.arr [.num p.2.1, .num p.2.2])))
        = PlainObj.keys idx :=
      PlainObj.keys_map (fun r : Nat × Nat => JVal.arr [.num r.1, .num r.2]) idx
    have hkn : PlainObj.keys (numIndex idx) = PlainObj.keys idx :=
      PlainObj.keys_map (fun r : Nat × Nat => ((some r.1 : Option Nat), (some r.2 : Option Nat)))
        idx
    rw [getKeys_obj B hBm, hBd, hkm, ← hkn]
    have hk : PlainObj.keys (numIndex idx) = ks := by
      unfold PlainObj.keys
      rw [ho, numIndex_keys, hfst]
    rw [hk]
    have h0 : concat (keys ([] : PlainObj Buffer)) ks = ks := by
      simp [concat, keys, PlainObj.keys, PlainObj.ownEntries]
    rw [h0, unique_of_nodup hn]
  have hdB : _getDump P B = .ok (vals.map Value.buffer, numIndex idx) := by
    rw [hidx]
    exact getDump_eq P B hksB hn hnp hvB
  have hlockB : fs.existsSync (save P A fsys).fsys B._lockPath = false := by
    rw [hBlock]
    simp [fs.existsSync, hl]
  have hwlB : fs.canWrite (save P A fsys).fsys B._lockPath = true := by
    rw [hBlock]
    exact canWrite_after_save P A fsys hwl (by rw [hl]; simp)
  have hwpB : fs.canWrite (save P A fsys).fsys B._path = true := by
    rw [hBpath]
    exact canWrite_after_save P A fsys hwp (by rw [hp]; simp)
  have hwmB : fs.canWrite (save P A fsys).fsys B._mapPath = true := by
    rw [hBmap]
    exact canWrite_after_save P A fsys hwm (by rw [hm]; simp)
  obtain ⟨herrB, hpB, hmB, _, _⟩ :=
    save_of_dump P B (save P A fsys).fsys hdB (concat_buffers vals) hlockB hwlB hwpB hwmB
  rw [hBpath] at hpB
  rw [hBmap] at hmB
  exact ⟨herr, hBd, herrB, _, _, hp, hm, hpB, hmB⟩

/-- The statement above on the store holding `name`, saved on an empty file system. -/
theorem load_then_save_fixed_witness :
    (WellFormed nameStore ∧ PlainOverlay nameStore ∧ plainKeys nameStore = true ∧
      fs.existsSync emptyFS nameStore._lockPath = false ∧
      fs.canWrite emptyFS nameStore._lockPath = true ∧
      fs.canWrite emptyFS nameStore._path = true ∧
      fs.canWrite emptyFS nameStore._mapPath = true ∧
      (∀ d, _getDump refPlatform nameStore = .ok d → refPlatform.RoundTrips d.2) ∧
      (∀ d, _getDump refPlatform nameStore = .ok d → PlainObj.ownEntries d.2 = d.2)) ∧
    ((save refPlatform nameStore emptyFS).error = none ∧
      (create refPlatform (save refPlatform nameStore emptyFS).fsys nameStore._path none)._data
        = [] ∧
      (save refPlatform
        (create refPlatform (save refPlatform nameStore emptyFS).fsys nameStore._path none)
        (save refPlatform nameStore emptyFS).fsys).error = none ∧
      ∃ blob text,
        (save refPlatform nameStore emptyFS).fsys.entries nameStore._path
          = some (.file blob) ∧
        (save refPlatform nameStore emptyFS).fsys.entries nameStore._mapPath
          = some (.file text) ∧
        (save refPlatform
          (create refPlatform (save refPlatform nameStore emptyFS).fsys nameStore._path none)
          (save refPlatform nameStore emptyFS).fsys).fsys.entries nameStore._path
          = some (.file blob) ∧
        (save refPlatform
          (create refPlatform (save refPlatform nameStore emptyFS).fsys nameStore._path none)
          (save refPlatform nameStore emptyFS).fsys).fsys.entries nameStore._mapPath
          = some (.file text)) :=
  have h0 : _getDump refPlatform nameStore
      = .ok ([.buffer liciaBytes], [("name", (some 0, some 5))]) := rfl
  have hrt : ∀ d, _getDump refPlatform nameStore = .ok d → refPlatform.RoundTrips d.2 := by
    intro d hd
    rw [h0] at hd
    cases hd
    rfl
  have hord : ∀ d, _getDump refPlatform nameStore = .ok d →
      PlainObj.ownEntries d.2 = d.2 := by
    intro d hd
    rw [h0] at hd
    cases hd
    decide
  ⟨⟨by decide, by decide, by decide, by decide, by decide, by decide, by decide, hrt, hord⟩,
    load_then_save_fixed refPlatform nameStore emptyFS (by decide) (by decide) (by decide)
      (by decide) (by decide) (by decide) (by decide) hrt hord⟩

end FileBlobStore

/-! ## What holds when no key names a member of `Object.prototype` -/

namespace FileBlobStore

/-- With the lock file present, `save()` on a store of the data model none of whose keys
names a member of `Object.prototype` returns without throwing and leaves the file system as
it was. -/
theorem save_locked_plain (P : Platform) (s : FileBlobStore) (fsys : FileSystem)
    (hwf : WellFormed s) (hpo : PlainOverlay s) (hpk : plainKeys s = true)
    (hlock : fs.existsSync fsys s._lockPath = true) :
    (save P s fsys).error = none ∧ (save P s fsys).fsys = fsys := by
  obtain ⟨ks, vals, idx, _, _, _, _, hd, _⟩ := plain_snapshot P s hwf hpo hpk
  have hw : fs.writeFileSync fsys s._lockPath lockContent true
      = .error (.fsError "EEXIST") := by
    simp [fs.writeFileSync, hlock]
  have hs : save P s fsys = { fsys := fsys, error := none } := by
    simp [save, hd, concat_buffers, saveTry_of_lock_error s fsys _ _ hw, saveCatch,
      JSError.code]
  rw [hs]
  exact ⟨rfl, rfl⟩

/-- The snapshot `save()` writes for a store of the data model none of whose keys names a
member of `Object.prototype`, when the lock is free and the writes succeed: the blob is the
concatenation of `get(k)` over the merged keys in order, the index has an entry for exactly
the merged keys, its ranges tile the blob, and the slice of the blob at the range of a key
is `get(k)`. -/
theorem save_snapshot_plain (P : Platform) (s : FileBlobStore) (fsys : FileSystem)
    (hwf : WellFormed s) (hpo : PlainOverlay s) (hpk : plainKeys s = true)
    (hlock : fs.existsSync fsys s._lockPath = false)
    (hwl : fs.canWrite fsys s._lockPath = true) (hwp : fs.canWrite fsys s._path = true)
    (hwm : fs.canWrite fsys s._mapPath = true) :
    ∃ (ks : List String) (vals : List Buffer) (idx : PlainObj (Nat × Nat)),
      _getKeys s = .ok ks ∧
      List.Forall₂ (fun k v => get P s k = .ok (some (.buffer v))) ks vals ∧
      (save P s fsys).error = none ∧
      (save P s fsys).fsys.entries s._path = some (.file vals.flatten) ∧
      (save P s fsys).fsys.entries s._mapPath
        = some (.file (P.stringify (indexValue (numIndex idx)))) ∧
      (∀ k, PlainObj.get idx k ≠ none ↔ k ∈ ks) ∧
      tiles 0 (idx.map Prod.snd) vals.flatten.length = true ∧
      (∀ k a b, PlainObj.get idx k = some (a, b) →
        get P s k = .ok (some (.buffer (Buffer.slice P vals.flatten (.num a) (.num b))))) := by
  obtain ⟨ks, vals, idx, hks, hn, hv, _, hd, _, hfst, htiles, hslice⟩ :=
    plain_snapshot P s hwf hpo hpk
  obtain ⟨herr, hp, hm, _, _⟩ :=
    save_of_dump P s fsys hd (concat_buffers vals) hlock hwl hwp hwm
  refine ⟨ks, vals, idx, hks, hv, herr, hp, hm, ?_, htiles, ?_⟩
  · intro k
    rw [Ne, PlainObj.get_eq_none_iff, not_not, hfst]
  · intro k a b hk
    obtain ⟨pre, v, post, h1, h2, h3, h4⟩ := hslice k a b hk
    rw [h4, h1, h2, h3, slice_append]

/-- The two scenarios of a snapshot: the store holding `name` saves its five bytes with
the index text that puts `name` at `[0, 5]`; after `set('a', [1, 2])`, `set('b', [3])`,
`remove('a')` the store saves the byte `[3]` with the index text that puts `b` at
`[0, 1]`. -/
theorem save_scenarios :
    (save refPlatform nameStore emptyFS).fsys.entries "data" = some (.file liciaBytes) ∧
      (save refPlatform nameStore emptyFS).fsys.entries "data.MAP"
        = some (.file (Ref.asciiText "\x7b\"name\":[0,5]\x7d")) ∧
      (save refPlatform abStore emptyFS).fsys.entries "data" = some (.file [3]) ∧
      (save refPlatform abStore emptyFS).fsys.entries "data.MAP"
        = some (.file (Ref.asciiText "\x7b\"b\":[0,1]\x7d")) :=
  ⟨rfl, rfl, rfl, rfl⟩

theorem get_map {α β : Type} (g : α → β) (o : PlainObj α) (k : String) :
    PlainObj.get (o.map (fun p => (p.1, g p.2))) k = (PlainObj.get o k).map g := by
  induction o with
  | nil => simp [PlainObj.get]
  | cons p o ih =>
    obtain ⟨k', r⟩ := p
    by_cases h : k' = k
    · simp [PlainObj.get, h]
    · simp [PlainObj.get, h, ih]

/-- The round trip through disk for a store `A` of the data model none of whose keys names
a member of `Object.prototype`: if no lock file exists, the writes succeed and the runtime
reads back the index it writes, then `save()` returns and a store `B` constructed from the
same path has `B.get(k) = A.get(k)` for every key of the merged key set of `A`, which is
the set of the keys of the overlay and of the stored index, and `B.get(k)` is `undefined`
for every other key that names no member of `Object.prototype`. -/
theorem round_trip_plain (P : Platform) (A : FileBlobStore) (fsys : FileSystem)
    (hwf : WellFormed A) (hpo : PlainOverlay A) (hpk : plainKeys A = true)
    (hlock : fs.existsSync fsys A._lockPath = false)
    (hwl : fs.canWrite fsys A._lockPath = true) (hwp : fs.canWrite fsys A._path = true)
    (hwm : fs.canWrite fsys A._mapPath = true)
    (hrt : ∀ d, _getDump P A = .ok d → P.RoundTrips d.2) :
    (save P A fsys).error = none ∧
      ∃ kvs ks, A._storedBlobMap = .obj kvs ∧ _getKeys A = .ok ks ∧
        (∀ k, k ∈ ks ↔ (PlainObj.get A._data k ≠ none ∨ PlainObj.get kvs k ≠ none)) ∧
        ∀ k, (k ∈ ks → get P (create P (save P A fsys).fsys A._path none) k = get P A k) ∧
          (k ∉ ks → isInherited k = false →
            get P (create P (save P A fsys).fsys A._path none) k = .ok none) := by
  obtain ⟨kvs, hs, _⟩ := isIndex_obj hwf
  obtain ⟨ks, vals, idx, hks, hn, _, _, hd, _, hfst, _, hslice⟩ :=
    plain_snapshot P A hwf hpo hpk
  have hni := plainKeys_spec hpk hks
  have hks2 := getKeys_obj A hs
  rw [hks] at hks2
  cases hks2
  obtain ⟨herr, hp, hm, _, _⟩ :=
    save_of_dump P A fsys hd (concat_buffers vals) hlock hwl hwp hwm
  have hparse := hrt _ hd
  have hB := create_of_files P (save P A fsys).fsys A._path none hp hm hparse
  generalize create P (save P A fsys).fsys A._path none = B at hB ⊢
  have hBd : PlainObj.get B._data = fun _ => none := by rw [hB]; rfl
  have hBp : B._dataProto = none := by rw [hB]
  have hBm : B._storedBlobMap = .obj ((PlainObj.ownEntries (numIndex idx)).map
      (fun p => (p.1, JVal.arr [offsetValue p.2.1, offsetValue p.2.2]))) := by
    rw [hB]
    rfl
  have hBb : B._storedBlob = vals.flatten := by rw [hB]
  have hnd : ((numIndex idx).map Prod.fst).Nodup := by
    rw [numIndex_keys, hfst]
    exact hn
  have hget : ∀ k, PlainObj.get ((PlainObj.ownEntries (numIndex idx)).map
      (fun p => (p.1, JVal.arr [offsetValue p.2.1, offsetValue p.2.2]))) k
      = (PlainObj.get idx k).map (fun r => JVal.arr [.num r.1, .num r.2]) := by
    intro k
    rw [get_map (fun r : Option Nat × Option Nat => JVal.arr [offsetValue r.1, offsetValue r.2]),
      PlainObj.get_ownEntries hnd, get_numIndex, Option.map_map]
    rfl
  refine ⟨herr, kvs, _, hs, hks, mem_mergedKeys A kvs, fun k => ⟨?_, ?_⟩⟩
  · intro hk
    have hsome : PlainObj.get idx k ≠ none := by
      rw [Ne, PlainObj.get_eq_none_iff, not_not, hfst]
      exact hk
    obtain ⟨⟨a, b⟩, hab⟩ := Option.ne_none_iff_exists'.mp hsome
    obtain ⟨pre, v, post, h1, h2, h3, h4⟩ := hslice k a b hab
    have hentry := hget k
    rw [hab] at hentry
    rw [h4, get, get_storage P B (by rw [hBd]) hBp (hni k hk),
      getFromStorage_pair P B hBm hentry, hBb, h1, h2, h3, slice_append]
  · intro hk hi
    have hnone : PlainObj.get idx k = none := by
      rw [PlainObj.get_eq_none_iff, hfst]
      exact hk
    have hentry := hget k
    rw [hnone] at hentry
    rw [get, get_storage P B (by rw [hBd]) hBp hi]
    exact getFromStorage_none P B hBm hentry hi

/-- The bulk `set` and the single-key calls in turn leave the same store, the same events
and the same exception, for a mapping that has no own property `__proto__`. -/
theorem setEach_eq_setOneByOne (P : Platform) (l : List (String × Buffer))
    (hl : ∀ p ∈ l, p.1 ≠ "__proto__") :
    ∀ (s : FileBlobStore) (evs : List ChangeEvent),
      setEach P l s evs = setOneByOne P l s evs := by
  induction l with
  | nil =>
    intro s evs
    rfl
  | cons p rest ih =>
    intro s evs
    obtain ⟨k, b⟩ := p
    have hk : k ≠ "__proto__" := hl (k, b) (List.mem_cons_self _ _)
    have hrest := ih (fun q hq => hl q (List.mem_cons_of_mem _ hq))
    cases h : get P s k with
    | error e =>
      have hs : set P s (.single k b) = { store := s, events := [], error := some e } := by
        simp [set, hk, setEach, h]
      simp [setEach, setOneByOne, h, hs]
    | ok old =>
      cases ha : assignData P s k b with
      | error e =>
        have hs : set P s (.single k b) = { store := s, events := [], error := some e } := by
          simp [set, hk, setEach, h, ha]
        simp [setEach, setOneByOne, h, ha, hs]
      | ok s1 =>
        have hs : set P s (.single k b) =
            { store := s1, events := [{ key := k, buf := b, oldBuf := old }], error := none } := by
          simp [set, hk, setEach, h, ha]
        simp [setEach, setOneByOne, h, ha, hs, hrest]

/-- What does hold of the bulk `set`: for every store state and every mapping that has no
own property `__proto__`, `set(m)` leaves the same store, the same sequence of change
events and the same exception, if any, as the calls `set(k, m[k])` made one after the other
for the keys of `m` in its iteration order. -/
theorem set_bulk_as_repeated (P : Platform) (s : FileBlobStore) (m : PlainObj Buffer)
    (hm : ∀ p ∈ m, p.1 ≠ "__proto__") : set P s (.bulk m) = setRepeated P s m := by
  simp only [set, setRepeated]
  exact setEach_eq_setOneByOne P _
    (fun p hp => hm p ((PlainObj.ownEntries_perm m).mem_iff.mp hp)) s []

end FileBlobStore

end Licia
